import Mathlib

/-!
Verification of the ipasim SysTranslator / DynamicLoader core.

A shallow embedding, in Lean 4, of the cross-ABI execution core implemented in
`src/IpaSimulator/DynamicLoader.cpp` and `include/ipasim/SysTranslator.hpp`:

* path resolution (`resolvePath`),
* the Objective-C type decoder (`TypeDecoder::getNextTypeSize`),
* the guest-to-host argument marshaller (`DynamicCaller`),
* the LR-stack discipline of `execute` / `returnToKernel`,
* the Mach-O / PE loader (`load`, `loadMachO`, `loadPE`) with its library
  index, relocation processing and binding resolution,
* the fetch-protection hook (`handleFetchProtMem`).

Machine integers are modelled as `Nat` with explicit `% 2^32` / `% 2^64`
where C truncation matters.  C strings are modelled as `List Char` (the
terminating NUL is the empty list).  External collaborators that the sources
call but do not define (the host file system, `std::filesystem` relativity
rules, symbol resolution inside a loaded image, the FFI allocator) are
modelled as oracles; each such definition carries a doc comment saying so.
General recursion through the library index (`load` recursing into
`loadMachO` recursing into `load`) is given a fuel parameter; running out of
fuel sets a distinguished `outOfFuel` flag, and the termination theorem shows
the flag is never set when the fuel exceeds the number of yet-unloaded files.
-/

namespace Ipasim

/-- Paths are C++ `std::string` values, modelled as their character lists. -/
abbrev Path := List Char

/-! ## Association lists (model of `std::map` with unique keys) -/

/-- Model of `std::map::find`: the value stored under `q`, if any. -/
def alLookup {κ α : Type} [DecidableEq κ] : List (κ × α) → κ → Option α
  | [], _ => none
  | (k, v) :: t, q => if k = q then some v else alLookup t q

/-- Model of `std::map::operator[] = v`: replace the entry for `k`, or append one. -/
def alInsert {κ α : Type} [DecidableEq κ] (k : κ) (v : α) : List (κ × α) → List (κ × α)
  | [] => [(k, v)]
  | (k', v') :: t => if k' = k then (k, v) :: t else (k', v') :: alInsert k v t

/-- Model of `std::map::erase(k)`: drop the entry for `k` (the first one, which is the
only one when keys are unique). -/
def alErase {κ α : Type} [DecidableEq κ] (k : κ) : List (κ × α) → List (κ × α)
  | [] => []
  | (k', v') :: t => if k' = k then t else (k', v') :: alErase k t

/-- Update every entry stored under `k` in place (the mutation a
`LoadedLibrary *` obtained from the map performs). -/
def alUpdate {κ α : Type} [DecidableEq κ] (k : κ) (f : α → α) : List (κ × α) → List (κ × α)
  | [] => []
  | (k', v) :: t =>
    if k' = k then (k', f v) :: alUpdate k f t else (k', v) :: alUpdate k f t

/-- Number of entries stored under key `k`. -/
def countKey {κ α : Type} [DecidableEq κ] (k : κ) (l : List (κ × α)) : Nat :=
  (l.filter (fun e => e.1 = k)).length

/-! ## Path resolution (`DynamicLoader::resolvePath`, lines 122-132) -/

/-- Structure `BinaryPath` from `DynamicLoader.hpp`: a resolved path plus whether it is
relative to the installed package. -/
structure BinaryPath where
  Path : Path
  Relative : Bool
deriving DecidableEq, Repr

/-- A Windows path separator (`/` is accepted, `\` is preferred). -/
def isSep (c : Char) : Bool := c = '/' ∨ c = '\\'

/-- Modelled from the spec: the host OS decides relativity ("relative iff the
OS says so").  `std::filesystem::path::is_relative` on Windows is the negation
of `is_absolute`, and a Windows path is absolute exactly when it has both a
root name and a root directory: a drive letter followed by `:` and a
separator, or a UNC prefix of two separators.  The implementation of this
query is not part of the repository sources. -/
def isAbsoluteWin : List Char → Bool
  | c0 :: c1 :: rest =>
    (isSep c0 && isSep c1) ||
    (c0.isAlpha && c1 = ':' && (match rest with | c2 :: _ => isSep c2 | [] => false))
  | _ => false

/-- Model of `std::filesystem::path::is_relative` on the Windows host. -/
def isRelativeWin (p : List Char) : Bool := ! isAbsoluteWin p

/-- Model of `std::filesystem::path::make_preferred` on Windows: every `/` becomes `\`. -/
def makePreferred (p : List Char) : List Char :=
  p.map (fun c => if c = '/' then '\\' else c)

/-- Model of `DynamicLoader::resolvePath`: a path starting with `/` becomes
`gen/<...>` with host-preferred separators and is marked relative; any other
path is returned verbatim with relativity decided by the OS. -/
def resolvePath : Path → BinaryPath
  | [] => ⟨[], isRelativeWin []⟩
  | c :: rest =>
    if c = '/' then
      ⟨makePreferred ('g' :: 'e' :: 'n' :: c :: rest), true⟩
    else
      ⟨c :: rest, isRelativeWin (c :: rest)⟩

/-! ## TypeDecoder (`DynamicLoader::TypeDecoder`, lines 933-982)

The decoder walks a C string; we model the cursor `T` as the remaining
character list (so `*T == 0` is the empty list).  `getNextTypeSizeImpl`
returns with the cursor on the *last* character of the decoded type, exactly
as the C code does, and `getNextTypeSize` then advances once and skips
digits.  The C code has no fuel: its recursion terminates because every inner
`getNextTypeSize` consumes at least one character.  The fuel below is a
termination device only; `tdFuel` is generous enough that the exhaustion
branch is unreachable on every input considered in the theorems. -/

/-- Sentinel `InvalidSize` is `(size_t)-1`; we model decoder results as `Option Nat`
with `none` for the invalid sentinel. -/
abbrev TypeSize := Option Nat

/-- The name-skipping loop of the `{` case: `for (++T; *T != '='; ++T)`;
returns the cursor just after `=`, or `none` when the string ends first. -/
def skipStructName : List Char → Option (List Char)
  | [] => none
  | c :: r => if c = '=' then some r else skipStructName r

/-- The digit-skipping loop at the end of `getNextTypeSize`. -/
def skipDigits : List Char → List Char
  | [] => []
  | c :: r => if '0' ≤ c ∧ c ≤ '9' then skipDigits r else c :: r

mutual

/-- Model of `TypeDecoder::getNextTypeSizeImpl`.  Returns the size (or the invalid
sentinel) and the cursor position, which is on the last consumed character. -/
def getNextTypeSizeImpl : Nat → List Char → TypeSize × List Char
  | 0, l => (none, l)
  | fuel + 1, l =>
    match l with
    | [] => (none, [])
    | c :: r =>
      if c = 'v' then (some 0, c :: r)
      else if c = 'c' ∨ c = '@' ∨ c = ':' ∨ c = 'i' ∨ c = 'I' ∨ c = 'f' then (some 4, c :: r)
      else if c = '^' then
        -- the pointee type is consumed but its size is discarded
        (some 4, (getNextTypeSizeImpl fuel r).2)
      else if c = '\x7b' then
        match skipStructName r with
        | none => (none, [])  -- "struct type ended unexpectedly"
        | some r1 => structFields fuel 0 r1
      else (none, c :: r)  -- "unsupported type encoding"

/-- The field loop of the struct case: `while (*T != '}') { ... }`. -/
def structFields : Nat → Nat → List Char → TypeSize × List Char
  | 0, _, l => (none, l)
  | fuel + 1, acc, l =>
    match l with
    | '\x7d' :: r => (some acc, '\x7d' :: r)
    | _ =>
      match getNextTypeSize fuel l with
      | (none, r) => (none, r)
      | (some n, r) => structFields fuel (acc + n) r

/-- Model of `TypeDecoder::getNextTypeSize`: decode one type, advance the cursor past
it, then skip any trailing ASCII digits. -/
def getNextTypeSize : Nat → List Char → TypeSize × List Char
  | 0, l => (none, l)
  | fuel + 1, l =>
    let p := getNextTypeSizeImpl fuel l
    (p.1, skipDigits p.2.tail)

end

/-- Enough fuel for any input of this length (each nested call consumes at
least one character or one fuel unit). -/
def tdFuel (l : List Char) : Nat := 4 * l.length + 4

/-- Model of `TypeDecoder::hasNext`: `*T` is not NUL. -/
def hasNext (l : List Char) : Bool := ! l.isEmpty

/-- Repeatedly call `getNextTypeSize` until `hasNext` is false, collecting
the results.  The outer fuel bounds the number of calls; each call consumes
at least one character, so `length + 1` calls always reach the end. -/
def decodeAll : Nat → List Char → List TypeSize
  | 0, _ => []
  | fuel + 1, l =>
    if hasNext l then
      let p := getNextTypeSize (tdFuel l) l
      p.1 :: decodeAll fuel p.2
    else []

/-- The full decode of an encoding string. -/
def decodeSizes (l : List Char) : List TypeSize := decodeAll (l.length + 1) l

/-- Sum of the decoded sizes (only meaningful when all are valid). -/
def sumSizes (rs : List TypeSize) : Nat := (rs.filterMap id).sum

/-- No call returned the invalid sentinel. -/
def allValid (rs : List TypeSize) : Bool := rs.all Option.isSome

/-! ## The guest register file

Unicorn's ARM register identifiers `UC_ARM_REG_R0 .. UC_ARM_REG_R12` are
consecutive; we model the general registers by their index, `0` for `R0`
through `3` for `R3`, `13` for `SP` (`UC_ARM_REG_SP`) and `14` for `LR`.
Guest memory is modelled at 32-bit-word granularity: `mem a` is the word a
`uint32_t *` read at byte address `a` would return. -/

structure Emu where
  regs : Nat → Nat
  mem : Nat → Nat

/-- Model of `Emulator::writeReg` (`uc_reg_write`). -/
def writeReg (emu : Emu) (i v : Nat) : Emu :=
  { emu with regs := fun j => if j = i then v else emu.regs j }

/-! ## DynamicCaller (lines 888-927 and `SysTranslator.hpp` lines 50-86) -/

/-- The marshaller's state: the next register to harvest (`RegId`, as an
index, `0` = `UC_ARM_REG_R0`) and the staged argument words (`Args`). -/
structure DCState where
  regId : Nat
  args : List Nat
deriving DecidableEq, Repr

/-- A fresh `DynamicCaller` (constructor sets `RegId = UC_ARM_REG_R0`). -/
def dcInit : DCState := ⟨0, []⟩

/-- One iteration of `DynamicCaller::loadArg`'s loop: stage one 32-bit word,
from register `RegId` while `RegId <= UC_ARM_REG_R3`, otherwise from the
guest stack at `SP + (Args.size() - 4) * 4`. -/
def loadArgWord (emu : Emu) (dc : DCState) : DCState :=
  if dc.regId ≤ 3 then
    { regId := dc.regId + 1, args := dc.args ++ [emu.regs dc.regId] }
  else
    { dc with args := dc.args ++ [emu.mem (emu.regs 13 + (dc.args.length - 4) * 4)] }

/-- Runs `n` iterations of the loop. -/
def loadArgN (emu : Emu) : Nat → DCState → DCState
  | 0, dc => dc
  | n + 1, dc => loadArgN emu n (loadArgWord emu dc)

/-- Model of `DynamicCaller::loadArg(Size)`: the loop `for (I = 0; I != Size; I += 4)`
runs `Size / 4` times when `Size` is a multiple of 4 (the decoder only ever
produces such sizes; for any other size the C loop would not terminate). -/
def loadArg (emu : Emu) (size : Nat) (dc : DCState) : DCState :=
  loadArgN emu (size / 4) dc

/-- Outcome of `DynamicCaller::call`: the (possibly updated) register file,
the boolean result, the host calls performed (address and argument words, in
order) and the errors reported. -/
structure DCCallResult where
  emu : Emu
  ok : Bool
  calls : List (Nat × List Nat)
  errors : List String

/-- Model of `DynamicCaller::call(Returns, Addr)`: dispatch by arity through the
`CASE(0) .. CASE(6)` switch down to `call3`, which invokes the host function
with the staged words in order and, when `Returns`, writes the 32-bit result
back to guest `R0`; more than 6 words hits the `default` branch, which
reports "function has too many arguments" and returns `false` without
calling.  The host side is the oracle `hostCall`. -/
def dcCall (hostCall : Nat → List Nat → Nat) (emu : Emu) (dc : DCState)
    (returns : Bool) (addr : Nat) : DCCallResult :=
  if dc.args.length ≤ 6 then
    let ret := hostCall addr dc.args
    { emu := if returns then writeReg emu 0 ret else emu
      ok := true
      calls := [(addr, dc.args)]
      errors := [] }
  else
    { emu := emu, ok := false, calls := [], errors := ["function has too many arguments"] }

/-- The word `i` (0-based) of the AAPCS32 argument sequence: registers
`R0..R3` for the first four, then the stack at `SP + (i-4)*4`. -/
def aapcsWord (emu : Emu) (i : Nat) : Nat :=
  if i < 4 then emu.regs i else emu.mem (emu.regs 13 + (i - 4) * 4)

/-! ## The LR stack (`execute`, lines 389-422, and `returnToKernel`,
lines 424-433) -/

/-- The translator state relevant to the return-address discipline: the guest
`LR` register, the `LRs` stack (top at the head) and the three flags. -/
structure TransState where
  lr : Nat
  lrs : List Nat
  running : Bool
  restart : Bool
  contPending : Bool
deriving DecidableEq, Repr

/-- The entry sequence of `execute(uint64_t Addr)` up to `uc_emu_start`
(lines 394-405): read guest `LR` and push it onto `LRs`, write `KernelAddr`
into guest `LR`, set `Running`. -/
def executeEntry (kernelAddr : Nat) (st : TransState) : TransState :=
  { st with lrs := st.lr :: st.lrs, lr := kernelAddr, running := true }

/-- Model of `DynamicLoader::returnToKernel`: pop the top of `LRs` back into guest
`LR`, stop the emulator, clear `Running`.  (Popping an empty `std::stack` is
undefined behaviour in C++; the theorems exclude it by hypothesis, and the
model leaves the state unchanged there.) -/
def returnToKernel (st : TransState) : TransState :=
  match st.lrs with
  | l :: rest => { st with lr := l, lrs := rest, running := false }
  | [] => st

/-- Model of `DynamicLoader::returnToEmulation`: request a restart (`LR` untouched). -/
def returnToEmulation (st : TransState) : TransState :=
  { st with restart := true }

/-- The stack-relevant events during a run: an entry into emulation
(`execute`) or a return to the kernel sentinel (`returnToKernel`).  These are
the only two operations in the sources that touch `LRs`. -/
inductive EmuOp where
  | enter
  | ret
deriving DecidableEq, Repr

/-- Run a sequence of stack events. -/
def runOps (kernelAddr : Nat) (st : TransState) : List EmuOp → TransState
  | [] => st
  | .enter :: ops => runOps kernelAddr (executeEntry kernelAddr st) ops
  | .ret :: ops => runOps kernelAddr (returnToKernel st) ops

/-- Number of `execute` entries in a sequence. -/
def countEnters : List EmuOp → Nat
  | [] => 0
  | .enter :: t => countEnters t + 1
  | .ret :: t => countEnters t

/-- Number of `returnToKernel`s in a sequence. -/
def countRets : List EmuOp → Nat
  | [] => 0
  | .enter :: t => countRets t
  | .ret :: t => countRets t + 1

/-- Predicate `noUnderflow d ops`: starting from stack depth `d`, no `returnToKernel`
in `ops` ever pops an empty stack. -/
def noUnderflow : Nat → List EmuOp → Bool
  | _, [] => true
  | d, .enter :: ops => noUnderflow (d + 1) ops
  | d, .ret :: ops => decide (0 < d) && noUnderflow (d - 1) ops

/-! ## The loader (`load`, `loadMachO`, `loadPE`, lines 59-339)

The parsed binaries (LIEF's output), the host file system, the host PE
loader, symbol resolution inside a loaded image and `_aligned_malloc` are all
external to these sources; they appear below as oracle data carried by the
`World` and by the per-file structures. -/

/-- Page size of the host (from `Common.hpp`, not among the sources; the
standard 4 KiB page assumed throughout the spec). -/
def PageSize : Nat := 4096

/-- Round up to a page boundary (`roundToPageSize`). -/
def roundToPageSize (n : Nat) : Nat := ((n + PageSize - 1) / PageSize) * PageSize

/-- Round down to a page boundary (`alignToPageSize`). -/
def alignToPageSize (n : Nat) : Nat := (n / PageSize) * PageSize

/-- Truncating `uint64_t` subtraction (wraps modulo `2^64`, as `Addr - LowAddr` does). -/
def sub64 (a b : Nat) : Nat := (a + (2 ^ 64 - b % 2 ^ 64)) % 2 ^ 64

/-- Constant `CPU_TYPE_ARM` (Mach-O: 12). -/
def CPU_TYPE_ARM : Nat := 12
/-- Constant `MH_EXECUTE`. -/
def MH_EXECUTE : Nat := 2
/-- Constant `MH_DYLIB`. -/
def MH_DYLIB : Nat := 6
/-- Constant `MH_BUNDLE`. -/
def MH_BUNDLE : Nat := 8
/-- LIEF `BIND_CLASS_LAZY`. -/
def BIND_CLASS_LAZY : Nat := 2
/-- LIEF `BIND_CLASS_STANDARD`. -/
def BIND_CLASS_STANDARD : Nat := 3
/-- LIEF `BIND_TYPE_POINTER`. -/
def BIND_TYPE_POINTER : Nat := 1

/-- The Mach-O header fields `loadMachO` inspects. -/
structure MachOHeader where
  cpuType : Nat
  /-- `Hdr.has(HEADER_FLAGS::MH_SPLIT_SEGS)`. -/
  splitSegs : Bool
  fileType : Nat
  /-- `Bin.is_pie()`. -/
  pie : Bool
deriving DecidableEq, Repr

/-- A relocation entry (LIEF `Relocation`).  `R_SCATTERED` is the high bit of
the address field, so "scattered" is `address.testBit 31`. -/
structure Relocation where
  pcRelative : Bool
  /-- `origin() == RELOCATION_ORIGINS::ORIGIN_DYLDINFO`. -/
  originDyldInfo : Bool
  /-- `size()` in bits. -/
  relSize : Nat
  address : Nat
deriving DecidableEq, Repr

/-- A segment command.  `content` is the file-backed data, modelled at 32-bit
word granularity (one list entry per word, in address order). -/
structure SegmentCommand where
  vaddr : Nat
  vsize : Nat
  /-- `init_protection()` (VM_PROT bits: 1 read, 2 write, 4 execute). -/
  initProt : Nat
  content : List Nat
  relocations : List Relocation

/-- A dyld binding entry (LIEF `BindingInfo`). -/
structure BindingInfo where
  bindingClass : Nat
  bindingType : Nat
  addend : Int
  /-- `has_library()`. -/
  hasLibrary : Bool
  libraryName : Path
  symbolName : String
  address : Nat

/-- A parsed Mach-O file (what LIEF's `Parser::parse` yields plus the
symbol/metadata oracles of the resulting `LoadedDylib`). -/
structure MachOFile where
  header : MachOHeader
  segments : List SegmentCommand
  libraries : List Path
  bindings : List BindingInfo
  /-- Modelled from the spec: `LoadedDylib::findSymbol` (not among the
  sources) resolves an exported symbol to its unslid virtual address; `0`
  means not found.  The loader adds the slide at lookup time. -/
  exports : String → Nat
  /-- Modelled from the spec: `LoadedLibrary::getMethodType` (not among the
  sources) — the Objective-C method-type string registered for a guest
  address, if any. -/
  methodTypes : Nat → Option (List Char)

/-- A host PE file together with the host-loader behaviour on it. -/
structure PEFile where
  /-- Whether `LoadPackagedLibrary` succeeds. -/
  loadOk : Bool
  /-- Whether `GetModuleInformation` succeeds. -/
  modInfoOk : Bool
  /-- `MODULEINFO::lpBaseOfDll`. -/
  baseOfDll : Nat
  /-- `MODULEINFO::SizeOfImage`. -/
  sizeOfImage : Nat
  /-- Modelled from the spec: `LoadedDll::findSymbol` (`GetProcAddress`; not
  among the sources); `0` means not found.  Addresses are absolute. -/
  exports : String → Nat
  /-- Modelled from the spec: method-type metadata, as for dylibs. -/
  methodTypes : Nat → Option (List Char)

/-- What a path names in the host file system. -/
inductive FileKind where
  /-- `LIEF::MachO::is_macho` holds. -/
  | macho (m : MachOFile)
  /-- `LIEF::PE::is_pe` holds. -/
  | pe (d : PEFile)
  /-- Exists but has an unknown magic. -/
  | unknownMagic

/-- The `WrapperIndex` structure exported by wrapper DLLs (consumed
read-only): `Map` sends an RVA to an index into `Dylibs`. -/
structure WrapperIndex where
  map : List (Nat × Nat)
  dylibs : List Path

/-- A library record (`LoadedLibrary` with its `LoadedDylib` / `LoadedDll`
variants).  The numeric fields default to zero, standing for the
default-constructed record before the loader fills them in (the class
definitions are not among the sources; the spec calls such a record
"partially initialised"). -/
structure LoadedLibrary where
  /-- Whether this is a `LoadedDylib` (emulated Mach-O image). -/
  isDylib : Bool
  startAddress : Nat := 0
  size : Nat := 0
  machOPoser : Bool := false
  isWrapperDLL : Bool := false
  /-- `LoadedDll::Ptr` has been set (the host module handle). -/
  hasPtr : Bool := false
  /-- For a dylib: unslid export addresses; for a DLL: absolute ones. -/
  exports : String → Nat
  methodType : Nat → Option (List Char)

instance : Inhabited LoadedLibrary :=
  ⟨{ isDylib := false, exports := fun _ => 0, methodType := fun _ => none }⟩

/-- Model of `LoadedLibrary::findSymbol`: a dylib resolves exports against its own
`StartAddress` (the slide); a DLL's exports are already absolute.  `0` means
not found. -/
def libFindSymbol (r : LoadedLibrary) (s : String) : Nat :=
  if r.isDylib then
    if r.exports s = 0 then 0 else r.startAddress + r.exports s
  else r.exports s

/-- Model of `LoadedLibrary::isInRange` (modelled from the spec: the address table
returns the library whose `[StartAddress, StartAddress + Size)` contains the
queried address). -/
def isInRange (r : LoadedLibrary) (a : Nat) : Bool :=
  r.startAddress ≤ a ∧ a < r.startAddress + r.size

/-- The loader/translator mutable state: the library index `LIs`, the error
sink, guest memory, and the fuel-exhaustion marker of the model (no
counterpart in C++, where the recursion is unbounded). -/
structure LoaderState where
  lis : List (Path × LoadedLibrary)
  errors : List String
  mem : Nat → Nat
  outOfFuel : Bool

/-- Model of `DynamicLoader::error`: report a non-fatal error and continue. -/
def logError (st : LoaderState) (msg : String) : LoaderState :=
  { st with errors := msg :: st.errors }

/-- Write the 32-bit word at byte address `a`. -/
def wordWrite (m : Nat → Nat) (a v : Nat) : Nat → Nat :=
  fun x => if x = a then v else m x

/-- Model of `memcpy` of a word list to `base` (word-granular). -/
def writeWords (m : Nat → Nat) (base : Nat) : List Nat → Nat → Nat
  | [] => m
  | v :: t => writeWords (wordWrite m base v) (base + 4) t

/-- Model of `memset(..., 0, ...)` over `[base, base + bytes)` (word-granular). -/
def zeroFill (m : Nat → Nat) (base bytes : Nat) : Nat → Nat :=
  fun a => if base ≤ a ∧ a < base + bytes then 0 else m a

/-- The immutable world: the file system, the allocator, the in-memory
`WrapperIndex` interpretation and the kernel page address. -/
structure World where
  fs : List (Path × FileKind)
  /-- Modelled from the spec: `_aligned_malloc` — the page-aligned base
  address allocated for a block of the given size (`0` = failure). -/
  alloc : Nat → Nat
  /-- Modelled from the spec: reading a `WrapperIndex` structure at a given
  address (`reinterpret_cast<WrapperIndex *>(IdxAddr)`; dereferencing an
  address that holds no index is undefined behaviour in C++ and yields an
  arbitrary fixed value here). -/
  idxAt : Nat → WrapperIndex
  kernelAddr : Nat

/-- Is `k` present in the library index? -/
def present (st : LoaderState) (k : Path) : Prop := (alLookup st.lis k).isSome

instance (st : LoaderState) (k : Path) : Decidable (present st k) := by
  unfold present; infer_instance

/-- The number of file-system paths not yet in the library index (the
termination measure of the loader recursion). -/
def missing (w : World) (st : LoaderState) : Nat :=
  ((w.fs.map Prod.fst).filter (fun k => ! (alLookup st.lis k).isSome)).length

/-- The `std::map` representation invariant: at most one entry per key. -/
def WfLis (st : LoaderState) : Prop := ∀ k, countKey k st.lis ≤ 1

/-- Update the record stored under `k` (mutation through the `LoadedLibrary *`
handed out by the index). -/
def updateLib (k : Path) (f : LoadedLibrary → LoadedLibrary) (st : LoaderState) : LoaderState :=
  { st with lis := alUpdate k f st.lis }

/-- The fresh record `make_unique<LoadedDylib>(Parser::parse(Path))` holds. -/
def dylibInitRecord (m : MachOFile) : LoadedLibrary :=
  { isDylib := true, exports := m.exports, methodType := m.methodTypes }

/-- The fresh record `make_unique<LoadedDll>()` holds. -/
def dllInitRecord (d : PEFile) : LoadedLibrary :=
  { isDylib := false, exports := d.exports, methodType := d.methodTypes }

/-- Translate `VM_PROT_*` bits to `UC_PROT_*` bits (lines 188-198). -/
def protToPerms (vmProt : Nat) : Nat :=
  (if vmProt.testBit 0 then 1 else 0) +
  (if vmProt.testBit 1 then 2 else 0) +
  (if vmProt.testBit 2 then 4 else 0)

/-- One iteration of the relocation loop (lines 224-248): an unsupported
kind logs an error (and is then processed anyway — `error` does not abort);
a target outside `[VAddr, VAddr + VSize]` logs "relocation target out of
range" (and the word is then written anyway); a non-zero 32-bit word at the
target has the slide added (mod `2^32`); a zero word is deliberately left
untouched. -/
def processRelocation (slide lowAddr vaddr vsize : Nat) (st : LoaderState)
    (rel : Relocation) : LoaderState :=
  let st1 :=
    if rel.pcRelative ∨ ¬rel.originDyldInfo ∨ rel.relSize ≠ 32 ∨ rel.address.testBit 31 then
      logError st "unsupported relocation"
    else st
  let relAddr := lowAddr + slide + rel.address
  let st2 :=
    if relAddr > vaddr + vsize ∨ relAddr < vaddr then
      logError st1 "relocation target out of range"
    else st1
  if st2.mem relAddr ≠ 0 then
    { st2 with mem := wordWrite st2.mem relAddr ((st2.mem relAddr + slide) % 2 ^ 32) }
  else st2

/-- The segment-range fold of lines 158-174: track `LowAddr` / `HighAddr`
(each segment's top rounded to page size) and report overlaps. -/
def segRange (acc : Nat × Nat × LoaderState) (seg : SegmentCommand) : Nat × Nat × LoaderState :=
  let low := acc.1
  let high := acc.2.1
  let st := acc.2.2
  let segLow := seg.vaddr
  let segHigh := roundToPageSize (segLow + seg.vsize)
  let st :=
    if (segLow < high ∧ segLow ≥ low) ∨ (segHigh > low ∧ segHigh ≤ high) then
      logError st "overlapping segments (after rounding to pagesize)"
    else st
  (if segLow < low then segLow else low, if segHigh > high then segHigh else high, st)

/-- Map, copy and relocate one segment (lines 186-250).  `uc_mem_map_ptr`
itself has no effect on the modelled state; a no-permission segment is mapped
without copying; otherwise the content words are copied and the remainder of
the virtual size zero-filled.  Relocations run only when `Slide > 0`. -/
def processSegment (slide lowAddr : Nat) (st : LoaderState) (seg : SegmentCommand) : LoaderState :=
  let perms := protToPerms seg.initProt
  let vaddrS := seg.vaddr + slide
  let st :=
    if perms = 0 then st
    else
      let m1 := writeWords st.mem vaddrS seg.content
      let m2 :=
        if 4 * seg.content.length < seg.vsize then
          zeroFill m1 (vaddrS + 4 * seg.content.length) (seg.vsize - 4 * seg.content.length)
        else m1
      { st with mem := m2 }
  if slide > 0 then
    seg.relocations.foldl (processRelocation slide lowAddr vaddrS seg.vsize) st
  else st

/-- One iteration of the binding loop (lines 257-292).  `loadRec` is the
recursive `load` used to bring in the symbol's library. -/
def processBinding (loadRec : LoaderState → Path → LoaderState × Option Path)
    (slide : Nat) (libKey : Path) (st : LoaderState) (b : BindingInfo) : LoaderState :=
  if (b.bindingClass ≠ BIND_CLASS_STANDARD ∧ b.bindingClass ≠ BIND_CLASS_LAZY) ∨
      b.bindingType ≠ BIND_TYPE_POINTER ∨ b.addend ≠ 0 then
    logError st "unsupported binding info"
  else if ¬b.hasLibrary then
    logError st "flat-namespace symbols are not supported yet"
  else
    let p := loadRec st b.libraryName
    match p.2 with
    | none => logError p.1 "symbol library could not be loaded"
    | some k =>
      let lib := (alLookup p.1.lis k).getD default
      let symAddr := libFindSymbol lib b.symbolName
      if symAddr = 0 then
        logError p.1 "external symbol could not be resolved"
      else
        let target := b.address + slide
        -- `LLP->checkInRange(TargetAddr)` is not among the sources; modelled
        -- from the spec: bounds-check against the library's range, else error.
        let self := (alLookup p.1.lis libKey).getD default
        if isInRange self target then
          { p.1 with mem := wordWrite p.1.mem target (symAddr % 2 ^ 32) }
        else
          logError p.1 "binding target out of range"

/-- Model of `canSegmentsSlide` (lines 108-114): `MH_DYLIB`, `MH_BUNDLE`, or a PIE
`MH_EXECUTE`. -/
def canSegmentsSlide (h : MachOHeader) : Prop :=
  h.fileType = MH_DYLIB ∨ h.fileType = MH_BUNDLE ∨ (h.fileType = MH_EXECUTE ∧ h.pie)

instance (h : MachOHeader) : Decidable (canSegmentsSlide h) := by
  unfold canSegmentsSlide; infer_instance

/-- The header checks of `loadMachO` (lines 146-153): each failure is
reported through `error`, which logs and *returns* — loading continues. -/
def machOHeaderChecks (m : MachOFile) (st : LoaderState) : LoaderState :=
  let st :=
    if m.header.cpuType ≠ CPU_TYPE_ARM then logError st "expected ARM binary" else st
  let st :=
    if m.header.splitSegs then logError st "MH_SPLIT_SEGS not supported" else st
  if ¬canSegmentsSlide m.header then logError st "the binary is not slideable" else st

/-- Everything in `loadMachO` after the header checks (lines 156-294):
compute the segment bounds, allocate, store `StartAddress`/`Size`, map and
relocate the segments, load referenced dylibs, resolve bindings, return the
record (there is no failure return). -/
def machOTail (w : World) (loadRec : LoaderState → Path → LoaderState × Option Path)
    (path : Path) (m : MachOFile) (st : LoaderState) : LoaderState × Option Path :=
  let bounds := m.segments.foldl segRange (2 ^ 64 - 1, 0, st)
  let lowAddr := bounds.1
  let highAddr := bounds.2.1
  let st := bounds.2.2
  let size := sub64 highAddr lowAddr
  let base := w.alloc size
  let st := if base = 0 then logError st "could not allocate memory for segments" else st
  let slide := sub64 base lowAddr
  let st := updateLib path (fun r => { r with startAddress := slide, size := size }) st
  let st := m.segments.foldl (processSegment slide lowAddr) st
  let st := m.libraries.foldl (fun st lib => (loadRec st lib).1) st
  let st := m.bindings.foldl (processBinding loadRec slide path) st
  (st, some path)

/-- Model of `DynamicLoader::loadMachO` (lines 134-295), parametric in the recursive
`load`.  The record is inserted into `LIs` *first* (line 143); the header
checks (lines 146-153) log errors but never abort; the function has no early
return and always yields the inserted record. -/
def loadMachO (w : World) (loadRec : LoaderState → Path → LoaderState × Option Path)
    (st : LoaderState) (path : Path) (m : MachOFile) : LoaderState × Option Path :=
  let st := { st with lis := alInsert path (dylibInitRecord m) st.lis }
  machOTail w loadRec path m (machOHeaderChecks m st)

/-- Model of `DynamicLoader::loadPE` (lines 297-339).  The record is inserted first
("mark the library as found"); a failed `LoadPackagedLibrary` erases it again
and returns null; a failed `GetModuleInformation` returns null but leaves the
record in the index. -/
def loadPE (st : LoaderState) (path : Path) (d : PEFile) : LoaderState × Option Path :=
  let st := { st with lis := alInsert path (dllInitRecord d) st.lis }
  if ¬d.loadOk then
    let st := logError st "could not load DLL"
    ({ st with lis := alErase path st.lis }, none)
  else
    let st := updateLib path (fun r => { r with hasPtr := true }) st
    if ¬d.modInfoOk then
      (logError st "could not load module information", none)
    else
      let hdr := d.exports "_mh_dylib_header"
      let st := updateLib path (fun r =>
        if hdr ≠ 0 then
          { r with startAddress := hdr, size := d.sizeOfImage - (hdr - d.baseOfDll),
                   machOPoser := true }
        else
          { r with startAddress := d.baseOfDll, size := d.sizeOfImage, machOPoser := false }) st
      -- `mapMemory(alignToPageSize(StartAddress), roundToPageSize(Size), R|W)`
      -- affects only the emulator's page table, which is not part of the state.
      (st, some path)

/-- List-prefix test (`ipasim::startsWith`). -/
def startsWithChars : List Char → List Char → Bool
  | [], _ => true
  | _, [] => false
  | a :: p, b :: s => a = b && startsWithChars p s

/-- List-suffix test (`ipasim::endsWith`). -/
def endsWithChars (suffix s : List Char) : Bool :=
  startsWithChars suffix.reverse s.reverse

/-- The wrapper-DLL recognition of `load` (lines 87-89): relative, starts
with `gen\` and ends with `.wrapper.dll`. -/
def isGenWrapper (bp : BinaryPath) : Bool :=
  bp.Relative && startsWithChars ['g', 'e', 'n', '\\'] bp.Path &&
    endsWithChars ".wrapper.dll".data bp.Path

/-- The body of `DynamicLoader::load` (lines 59-92), parametric in the
recursive call used by `loadMachO`: resolve, hit the cache, check existence,
dispatch on magic, and finally set `IsWrapperDLL` on the returned record. -/
def loadCore (w : World) (loadRec : LoaderState → Path → LoaderState × Option Path)
    (st : LoaderState) (p : Path) : LoaderState × Option Path :=
  let bp := resolvePath p
  match alLookup st.lis bp.Path with
  | some _ => (st, some bp.Path)
  | none =>
    match alLookup w.fs bp.Path with
    | none => (logError st "invalid file", none)
    | some fk =>
      let r :=
        match fk with
        | .macho m => loadMachO w loadRec st bp.Path m
        | .pe d => loadPE st bp.Path d
        | .unknownMagic => (logError st "invalid binary type", none)
      match r.2 with
      | some k => (updateLib k (fun rec0 => { rec0 with isWrapperDLL := isGenWrapper bp }) r.1, some k)
      | none => (r.1, none)

/-- Model of `DynamicLoader::load` with fuel: the C++ recursion
`load → loadMachO → load` is bounded here by `fuel`; exhaustion sets the
`outOfFuel` marker (unreachable when the fuel exceeds the number of files not
yet loaded — the termination theorem). -/
def load : Nat → World → LoaderState → Path → LoaderState × Option Path
  | 0, _, st, _ => ({ st with outOfFuel := true }, none)
  | fuel + 1, w, st, p => loadCore w (fun st' q => load fuel w st' q) st p

/-! ## The fetch-protection hook (`handleFetchProtMem`, lines 456-588) -/

/-- Model of `DynamicLoader::lookup` (lines 705-712): linear scan of the library index
for the record whose range contains the address. -/
def lookupAddr (st : LoaderState) (a : Nat) : Option (Path × LoadedLibrary) :=
  st.lis.find? (fun e => isInRange e.2 a)

/-- Model of `std::filesystem::path::filename` — the component after the last
directory separator (modelled from the spec's wrapper naming convention,
`gen/<basename(path)>.wrapper.dll`; `std::filesystem` is not among the
sources). -/
def filenameOf (p : List Char) : List Char :=
  (p.reverse.takeWhile (fun c => ! isSep c)).reverse

/-- Model of `std::filesystem::path::replace_extension(ext)` on a filename: strip the
part from the last `.` on (unless the name is `.`/`..`, has no dot, or its
only dot is the leading one) and append `ext`. -/
def replaceExtension (name ext : List Char) : List Char :=
  let rev := name.reverse
  let afterDot := rev.takeWhile (fun c => c ≠ '.')
  if name = ['.'] ∨ name = ['.', '.'] then name ++ ext
  else if afterDot.length = rev.length then name ++ ext
  else
    let stemRev := rev.drop (afterDot.length + 1)
    if stemRev = [] then name ++ ext else stemRev.reverse ++ ext

/-- The wrapper path computed at lines 478-481:
`path("gen") / path(LibPath).filename().replace_extension(".wrapper.dll")`
(`operator/` joins with the preferred `\` separator on the host). -/
def wrapperPathFor (libPath : Path) : Path :=
  ['g', 'e', 'n', '\\'] ++ replaceExtension (filenameOf libPath) ".wrapper.dll".data

/-- The per-RVA alias symbol `"$__ipaSim_wraps_" + to_string(RVA)`. -/
def wrapsSymbol (rva : Nat) : String := "$__ipaSim_wraps_" ++ Nat.repr rva

/-- The argument-harvesting loop of the dynamic-dispatch path (lines
521-526): `while (TD.hasNext()) { Size = TD.getNextTypeSize(); if invalid
return false; DC->loadArg(Size); }`.  `none` is the `return false` case (the
fuel, one unit per character, cannot run out first). -/
def harvestArgs (emu : Emu) : Nat → DCState → List Char → Option DCState
  | 0, _, _ => none
  | fuel + 1, dc, t =>
    if hasNext t then
      match getNextTypeSize (tdFuel t) t with
      | (none, _) => none
      | (some n, t') => harvestArgs emu fuel (loadArg emu n dc) t'
    else some dc

/-- The observable outcome of `handleFetchProtMem`. -/
inductive FetchResult where
  /-- `returnToKernel()` was called and the hook returned `true`. -/
  | kernelReturn
  /-- The hook returned `false`. -/
  | fail
  /-- The hook wrote this guest `PC` and returned `true` (line 569-573). -/
  | wrotePC (pc : Nat)
  /-- The hook deferred, via `continueOutsideEmulation`, a `DynamicCaller`
  call of `target` with the staged words, then `returnToEmulation`. -/
  | deferDynamic (returns : Bool) (args : List Nat) (target : Nat)
  /-- The hook read guest `R0` and deferred, via `continueOutsideEmulation`,
  a call of `target` as `void(uint32)` with that `R0`, then
  `returnToEmulation` (lines 577-587). -/
  | deferWrapper (target r0 : Nat)
deriving DecidableEq, Repr

/-- Outcome of the `if (!Wrapper) { ... }` block (lines 477-558): an early
`return false`, an early `return true` with a deferred dynamic call, or
falling through to the common tail with the (possibly re-targeted) `Addr`. -/
inductive WrapperBlockOut where
  | failed
  | dynamic (returns : Bool) (args : List Nat) (target : Nat)
  | fallThrough (addr : Nat)

/-- Model of `DynamicLoader::handleFetchProtMem` (lines 456-588).  Note that the local
`Wrapper` flag is initialised from the faulting library's `IsWrapperDLL` and
is never reassigned: after a successful `WrapperIndex` hit the flag is still
false and the common tail writes the re-targeted `Addr` to the guest `PC`. -/
def handleFetchProtMem (fuel : Nat) (w : World) (emu : Emu) (st : LoaderState)
    (addr : Nat) : LoaderState × FetchResult :=
  match lookupAddr st addr with
  | none =>
    if addr = w.kernelAddr then (st, .kernelReturn)
    else (logError st "unmapped address fetched", .fail)
  | some ai =>
    let wrapper := ai.2.isWrapperDLL
    let block : LoaderState × WrapperBlockOut :=
      if wrapper then (st, .fallThrough addr)
      else
        let wrapperPath := wrapperPathFor ai.1
        let l1 := load fuel w st wrapperPath
        match l1.2 with
        | none => (l1.1, .failed)
        | some wk =>
          let wrec := (alLookup l1.1.lis wk).getD default
          let idxAddr := libFindSymbol wrec "?Idx@@3UWrapperIndex@@A"
          let idx := w.idxAt idxAddr
          -- "TODO: Add real base address instead of hardcoded 0x1000."
          let rva := addr - ai.2.startAddress + 0x1000
          match alLookup idx.map rva with
          | none =>
            match ai.2.methodType addr with
            | some t =>
              let rp := getNextTypeSize (tdFuel t) t
              match rp.1 with
              | some 0 =>
                match harvestArgs emu (rp.2.length + 1) dcInit rp.2 with
                | none => (l1.1, .failed)
                | some dc => (l1.1, .dynamic false dc.args addr)
              | some 4 =>
                match harvestArgs emu (rp.2.length + 1) dcInit rp.2 with
                | none => (l1.1, .failed)
                | some dc => (l1.1, .dynamic true dc.args addr)
              | _ => (logError l1.1 "unsupported return type", .failed)
            | none => (logError l1.1 "cannot find RVA in WrapperIndex", .failed)
          | some e =>
            let dylib := idx.dylibs.getD e []
            let l2 := load fuel w l1.1 dylib
            match l2.2 with
            | none => (l2.1, .failed)
            | some dk =>
              let drec := (alLookup l2.1.lis dk).getD default
              let newAddr := libFindSymbol drec (wrapsSymbol rva)
              if newAddr = 0 then (logError l2.1 "cannot find wrapper", .failed)
              else
                -- `AI = lookup(Addr); assert(AI.Lib && ...)`; the re-lookup
                -- only feeds the debug log and the assertion.
                (l2.1, .fallThrough newAddr)
    match block.2 with
    | .failed => (block.1, .fail)
    | .dynamic rets args target => (block.1, .deferDynamic rets args target)
    | .fallThrough a =>
      if wrapper then (block.1, .deferWrapper a (emu.regs 0))
      else (block.1, .wrotePC a)

/-! ## Concrete scenarios used by the witnesses and counterexamples -/

/-- The empty loader state. -/
def st0 : LoaderState := { lis := [], errors := [], mem := fun _ => 0, outOfFuel := false }

/-- An empty wrapper index (the `idxAt` oracle's value off the index page). -/
def emptyIdx : WrapperIndex := ⟨[], []⟩

/-- A Mach-O file with a non-ARM CPU type (otherwise well-formed: a dylib
with no segments, dependencies or bindings). -/
def mC2 : MachOFile :=
  { header := { cpuType := 7, splitSegs := false, fileType := MH_DYLIB, pie := false }
    segments := [], libraries := [], bindings := []
    exports := fun _ => 0, methodTypes := fun _ => none }

/-- World for the C2 counterexample: one non-ARM Mach-O on disk. -/
def wC2 : World :=
  { fs := [("m.dylib".data, .macho mC2)]
    alloc := fun _ => 0x100000, idxAt := fun _ => emptyIdx, kernelAddr := 0xd000 }

/-- An out-of-range relocation: dyld-info origin, 32 bits, not PC-relative,
not scattered, but `address` far beyond the segment. -/
def relC4 : Relocation :=
  { pcRelative := false, originDyldInfo := true, relSize := 32, address := 8192 }

/-- State whose memory holds the non-zero word 100 at the relocation's
(out-of-range) target address 12288. -/
def stC4 : LoaderState :=
  { lis := [], errors := [], mem := fun a => if a = 12288 then 100 else 0, outOfFuel := false }

/-- A loadable host PE (everything succeeds, no special exports). -/
def peGood : PEFile :=
  { loadOk := true, modInfoOk := true, baseOfDll := 0x400000, sizeOfImage := 0x3000
    exports := fun _ => 0, methodTypes := fun _ => none }

/-- A PE on which `LoadPackagedLibrary` fails. -/
def peNoLoad : PEFile := { peGood with loadOk := false }

/-- A PE on which `GetModuleInformation` fails. -/
def peNoInfo : PEFile := { peGood with modInfoOk := false }

/-- World for C5: one PE file reachable under the resolved path
`gen\lib\Foo` (so both `/lib/Foo` and `gen\lib\Foo` name it). -/
def wC5 : World :=
  { fs := [("gen\\lib\\Foo".data, .pe peGood)]
    alloc := fun _ => 0x100000, idxAt := fun _ => emptyIdx, kernelAddr := 0xd000 }

/-- An ARM dylib that depends on `b.dylib`. -/
def mA : MachOFile :=
  { header := { cpuType := CPU_TYPE_ARM, splitSegs := false, fileType := MH_DYLIB, pie := false }
    segments := [], libraries := ["b.dylib".data], bindings := []
    exports := fun _ => 0, methodTypes := fun _ => none }

/-- An ARM dylib that depends on `a.dylib` — the dependency cycle. -/
def mB : MachOFile :=
  { header := { cpuType := CPU_TYPE_ARM, splitSegs := false, fileType := MH_DYLIB, pie := false }
    segments := [], libraries := ["a.dylib".data], bindings := []
    exports := fun _ => 0, methodTypes := fun _ => none }

/-- World for C9: a cyclic dependency graph `a.dylib ↔ b.dylib`. -/
def wC9 : World :=
  { fs := [("a.dylib".data, .macho mA), ("b.dylib".data, .macho mB)]
    alloc := fun _ => 0x100000, idxAt := fun _ => emptyIdx, kernelAddr := 0xd000 }

/-- World for C10: one PE whose host load fails and one whose module-info
query fails. -/
def wC10 : World :=
  { fs := [("p1.dll".data, .pe peNoLoad), ("p2.dll".data, .pe peNoInfo)]
    alloc := fun _ => 0x100000, idxAt := fun _ => emptyIdx, kernelAddr := 0xd000 }

/-- The faulting (non-wrapper) host library `A.dll` of the C1 scenario:
mapped at `[0x100000, 0x101000)`. -/
def recA : LoadedLibrary :=
  { isDylib := false, startAddress := 0x100000, size := 0x1000, hasPtr := true
    exports := fun _ => 0, methodType := fun _ => none }

/-- The wrapper DLL `gen\A.wrapper.dll`: exports the `WrapperIndex` symbol at
address `0x9000`. -/
def peWrapA : PEFile :=
  { loadOk := true, modInfoOk := true, baseOfDll := 0x300000, sizeOfImage := 0x2000
    exports := fun s => if s = "?Idx@@3UWrapperIndex@@A" then 0x9000 else 0
    methodTypes := fun _ => none }

/-- The wrapped dylib `libw.dll`: exports the alias `$__ipaSim_wraps_4112`
(RVA `0x1010` in decimal) at `0x200040`. -/
def peWrapped : PEFile :=
  { loadOk := true, modInfoOk := true, baseOfDll := 0x200000, sizeOfImage := 0x1000
    exports := fun s => if s = "$__ipaSim_wraps_4112" then 0x200040 else 0
    methodTypes := fun _ => none }

/-- World for C1: the wrapper DLL and the wrapped dylib on disk; the
`WrapperIndex` at `0x9000` maps RVA 4112 (= `0x100010 - 0x100000 + 0x1000`)
to `libw.dll`. -/
def wC1 : World :=
  { fs := [("gen\\A.wrapper.dll".data, .pe peWrapA), ("libw.dll".data, .pe peWrapped)]
    alloc := fun _ => 0x100000, idxAt := fun a =>
      if a = 0x9000 then ⟨[(4112, 0)], ["libw.dll".data]⟩ else emptyIdx
    kernelAddr := 0xd000 }

/-- Loader state for C1: `A.dll` is already in the index. -/
def stC1 : LoaderState :=
  { lis := [("A.dll".data, recA)], errors := [], mem := fun _ => 0, outOfFuel := false }

/-- Guest registers for C1: `R0` holds `0x7777`. -/
def emuC1 : Emu := { regs := fun i => if i = 0 then 0x7777 else 0, mem := fun _ => 0 }

/-- Guest state for the C7 witness: register `i` holds `100 + i`, the word
at byte address `a` holds `1000 + a`. -/
def emuC7 : Emu := { regs := fun i => 100 + i, mem := fun a => 1000 + a }

/-- Translator state for the C8 witness. -/
def stT : TransState :=
  { lr := 7, lrs := [], running := false, restart := false, contPending := false }

/-- An in-range, supported relocation whose target holds the word 100. -/
def relC4b : Relocation :=
  { pcRelative := false, originDyldInfo := true, relSize := 32, address := 100 }

/-- State whose memory holds 100 at the in-range target `4196`. -/
def stC4b : LoaderState :=
  { lis := [], errors := [], mem := fun a => if a = 4196 then 100 else 0, outOfFuel := false }

/-- The loader state after loading the wrapper DLL in the C1 scenario. -/
def stC1w : LoaderState := (load 2 wC1 stC1 (wrapperPathFor "A.dll".data)).1

/-- The loader state after additionally loading the wrapped dylib. -/
def stC1d : LoaderState := (load 2 wC1 stC1w "libw.dll".data).1

/-- The loader state after loading the cyclic graph of `wC9`. -/
def stC9 : LoaderState := (load 3 wC9 st0 "a.dylib".data).1

/-! ## Invariant bundles used by the loader proofs -/

/-- The step relation of the loader induction: `st'` is reachable from `st`
by loader work that keeps every present library present, never drops logged
errors, preserves the unique-key invariant, and does not run out of fuel as
long as fewer than `bound` files remained unloaded at `st`. -/
def StepRel (w : World) (bound : Nat) (st st' : LoaderState) : Prop :=
  (∀ k, present st k → present st' k) ∧
  (∀ e, e ∈ st.errors → e ∈ st'.errors) ∧
  (WfLis st → WfLis st') ∧
  (st.outOfFuel = false → missing w st < bound → st'.outOfFuel = false)

/-- A state transformer every application of which is a `StepRel` step. -/
def GoodT (w : World) (bound : Nat) (t : LoaderState → LoaderState) : Prop :=
  ∀ st : LoaderState, StepRel w bound st (t st)

/-- The induction bundle for `load fuel w`: a `StepRel` step on the state,
plus the characterisation of a non-null result — it is the resolved path and
it is present in the index afterwards. -/
def LoadOK (w : World) (f : LoaderState → Path → LoaderState × Option Path) (bound : Nat) : Prop :=
  ∀ (st : LoaderState) (p : Path),
    StepRel w bound st (f st p).1 ∧
    (∀ k, (f st p).2 = some k → k = (resolvePath p).Path ∧ present (f st p).1 k)

/-! ## Association-list lemmas -/

theorem alLookup_alInsert_self {κ α : Type} [DecidableEq κ] (k : κ) (v : α) :
    ∀ l : List (κ × α), alLookup (alInsert k v l) k = some v := by
  intro l
  induction l with
  | nil => simp [alInsert, alLookup]
  | cons e t ih =>
    by_cases h : e.1 = k
    · simp [alInsert, h, alLookup]
    · simp [alInsert, h, alLookup, ih]

theorem alLookup_alInsert_ne {κ α : Type} [DecidableEq κ] (k q : κ) (v : α) (hne : k ≠ q) :
    ∀ l : List (κ × α), alLookup (alInsert k v l) q = alLookup l q := by
  intro l
  induction l with
  | nil => simp [alInsert, alLookup, hne]
  | cons e t ih =>
    rcases e with ⟨ek, ev⟩
    by_cases h : ek = k
    · subst h
      simp only [alInsert, if_pos rfl, alLookup, if_neg hne]
    · simp only [alInsert, if_neg h, alLookup, ih]

theorem countKey_nil {κ α : Type} [DecidableEq κ] (k : κ) :
    countKey k ([] : List (κ × α)) = 0 := rfl

theorem countKey_cons {κ α : Type} [DecidableEq κ] (k : κ) (e : κ × α) (t : List (κ × α)) :
    countKey k (e :: t) = (if e.1 = k then 1 else 0) + countKey k t := by
  by_cases h : e.1 = k
  · simp only [countKey, List.filter, h, if_pos rfl]
    simp [List.length_cons]
    omega
  · simp [countKey, List.filter, h]

theorem alLookup_eq_none_iff {κ α : Type} [DecidableEq κ] (k : κ) :
    ∀ l : List (κ × α), alLookup l k = none ↔ countKey k l = 0 := by
  intro l
  induction l with
  | nil => simp [alLookup, countKey_nil]
  | cons e t ih =>
    rw [countKey_cons]
    by_cases h : e.1 = k <;> simp [alLookup, h, ih]

theorem alLookup_isSome_iff {κ α : Type} [DecidableEq κ] (k : κ) (l : List (κ × α)) :
    (alLookup l k).isSome ↔ 0 < countKey k l := by
  rcases h : alLookup l k with _ | v
  · rw [alLookup_eq_none_iff] at h
    simp [h]
  · simp only [Option.isSome_some, true_iff]
    by_contra hc
    have h0 : countKey k l = 0 := by omega
    rw [← alLookup_eq_none_iff] at h0
    rw [h] at h0
    exact Option.noConfusion h0

theorem countKey_alInsert_self {κ α : Type} [DecidableEq κ] (k : κ) (v : α) :
    ∀ l : List (κ × α), countKey k (alInsert k v l) = max 1 (countKey k l) := by
  intro l
  induction l with
  | nil => simp [alInsert, countKey_cons, countKey_nil]
  | cons e t ih =>
    rcases e with ⟨ek, ev⟩
    by_cases h : ek = k
    · subst h
      simp [alInsert, countKey_cons]
    · simp only [alInsert, if_neg h, countKey_cons, if_neg h, ih]
      omega

theorem countKey_alInsert_ne {κ α : Type} [DecidableEq κ] (k q : κ) (v : α) (hne : k ≠ q) :
    ∀ l : List (κ × α), countKey q (alInsert k v l) = countKey q l := by
  intro l
  induction l with
  | nil => simp [alInsert, countKey_cons, countKey_nil, hne]
  | cons e t ih =>
    rcases e with ⟨ek, ev⟩
    by_cases h : ek = k
    · subst h
      simp only [alInsert, if_true, eq_self_iff_true, countKey_cons, if_neg hne]
    · simp only [alInsert, if_neg h, countKey_cons, ih]

theorem countKey_alErase_le {κ α : Type} [DecidableEq κ] (k q : κ) :
    ∀ l : List (κ × α), countKey q (alErase k l) ≤ countKey q l := by
  intro l
  induction l with
  | nil => simp [alErase]
  | cons e t ih =>
    by_cases h : e.1 = k
    · simp only [alErase, if_pos h, countKey_cons]
      omega
    · simp only [alErase, if_neg h, countKey_cons]
      omega

theorem alErase_alInsert {κ α : Type} [DecidableEq κ] (k : κ) (v : α) :
    ∀ l : List (κ × α), alLookup l k = none → alErase k (alInsert k v l) = l := by
  intro l
  induction l with
  | nil => simp [alInsert, alErase]
  | cons e t ih =>
    intro h
    simp only [alLookup] at h
    by_cases he : e.1 = k
    · rw [if_pos he] at h
      exact Option.noConfusion h
    · rw [if_neg he] at h
      simp [alInsert, he, alErase, ih h]

theorem alLookup_alUpdate_self {κ α : Type} [DecidableEq κ] (k : κ) (f : α → α) :
    ∀ l : List (κ × α), alLookup (alUpdate k f l) k = (alLookup l k).map f := by
  intro l
  induction l with
  | nil => simp [alUpdate, alLookup]
  | cons e t ih =>
    rcases e with ⟨ek, ev⟩
    by_cases he : ek = k
    · subst he
      simp [alUpdate, alLookup]
    · simp [alUpdate, alLookup, he, ih]

theorem alLookup_alUpdate_ne {κ α : Type} [DecidableEq κ] (k q : κ) (f : α → α) (hq : q ≠ k) :
    ∀ l : List (κ × α), alLookup (alUpdate k f l) q = alLookup l q := by
  intro l
  induction l with
  | nil => simp [alUpdate, alLookup]
  | cons e t ih =>
    rcases e with ⟨ek, ev⟩
    by_cases he : ek = k
    · subst he
      have hne : ¬ ek = q := fun h => hq h.symm
      simp [alUpdate, alLookup, hne, ih]
    · by_cases hq2 : ek = q
      · subst hq2
        simp [alUpdate, alLookup, he]
      · simp [alUpdate, alLookup, he, hq2, ih]

theorem countKey_alUpdate {κ α : Type} [DecidableEq κ] (k q : κ) (f : α → α) :
    ∀ l : List (κ × α), countKey q (alUpdate k f l) = countKey q l := by
  intro l
  induction l with
  | nil => rfl
  | cons e t ih =>
    rcases e with ⟨ek, ev⟩
    by_cases he : ek = k
    · subst he
      simp [alUpdate, countKey_cons, ih]
    · simp [alUpdate, countKey_cons, he, ih]

theorem alLookup_some_mem_keys {κ α : Type} [DecidableEq κ] (k : κ) (v : α) :
    ∀ l : List (κ × α), alLookup l k = some v → k ∈ l.map Prod.fst := by
  intro l
  induction l with
  | nil => intro h; exact Option.noConfusion h
  | cons e t ih =>
    intro h
    simp only [alLookup] at h
    by_cases he : e.1 = k
    · simp [← he]
    · rw [if_neg he] at h
      simp [ih h]

/-! ## Filter-length lemmas -/

theorem length_filter_mono {α : Type} (p q : α → Bool)
    (h : ∀ a, q a = true → p a = true) :
    ∀ l : List α, (l.filter q).length ≤ (l.filter p).length := by
  intro l
  exact (List.monotone_filter_right l (fun a ha => h a ha)).length_le

theorem length_filter_lt {α : Type} (p q : α → Bool) (x : α)
    (hmono : ∀ a, q a = true → p a = true) :
    ∀ l : List α, x ∈ l → p x = true → q x = false →
      (l.filter q).length < (l.filter p).length := by
  intro l
  induction l with
  | nil => intro h; exact absurd h (List.not_mem_nil x)
  | cons a t ih =>
    intro hmem hp hq
    rcases List.mem_cons.1 hmem with rfl | hmem
    · rw [List.filter_cons_of_pos hp, List.filter_cons_of_neg (by simp [hq])]
      have := length_filter_mono p q hmono t
      simp only [List.length_cons]
      omega
    · by_cases hqa : q a = true
      · rw [List.filter_cons_of_pos hqa, List.filter_cons_of_pos (hmono a hqa)]
        simpa using ih hmem hp hq
      · rw [List.filter_cons_of_neg (by simpa using hqa)]
        by_cases hpa : p a = true
        · rw [List.filter_cons_of_pos hpa]
          have := ih hmem hp hq
          simp only [List.length_cons]
          omega
        · rw [List.filter_cons_of_neg (by simpa using hpa)]
          exact ih hmem hp hq

/-! ## `present` / `missing` lemmas -/

theorem present_insert (st : LoaderState) (k : Path) (v : LoadedLibrary) (q : Path)
    (h : present st q) : present { st with lis := alInsert k v st.lis } q := by
  unfold present at *
  by_cases hq : k = q
  · subst hq
    simp [alLookup_alInsert_self]
  · simpa [alLookup_alInsert_ne k q v hq] using h

theorem present_update (st : LoaderState) (k : Path) (f : LoadedLibrary → LoadedLibrary)
    (q : Path) (h : present st q) : present (updateLib k f st) q := by
  unfold present updateLib at *
  by_cases hq : q = k
  · subst hq
    simpa [alLookup_alUpdate_self] using h
  · simpa [alLookup_alUpdate_ne k q f hq] using h

theorem missing_mono (w : World) (st st' : LoaderState)
    (h : ∀ k, present st k → present st' k) : missing w st' ≤ missing w st := by
  unfold missing
  apply length_filter_mono
  intro a ha
  simp only [Bool.not_eq_true'] at ha ⊢
  by_contra hc
  have h1 : present st a := by
    unfold present
    cases haEq : (alLookup st.lis a).isSome
    · exact absurd haEq (by simpa using hc)
    · simp
  have h2 := h a h1
  unfold present at h2
  rw [ha] at h2
  exact Bool.noConfusion h2

theorem missing_insert_lt (w : World) (st : LoaderState) (key : Path) (v : LoadedLibrary)
    (hfs : key ∈ w.fs.map Prod.fst) (hnp : alLookup st.lis key = none) :
    missing w { st with lis := alInsert key v st.lis } < missing w st := by
  unfold missing
  apply length_filter_lt _ _ key
  · intro a ha
    simp only [Bool.not_eq_true'] at ha ⊢
    by_contra hc
    have h1 : present st a := by
      unfold present
      cases haEq : (alLookup st.lis a).isSome
      · exact absurd haEq (by simpa using hc)
      · simp
    have h2 := present_insert st key v a h1
    unfold present at h2
    simp only at h2
    rw [ha] at h2
    exact Bool.noConfusion h2
  · exact hfs
  · simp [hnp]
  · simp [alLookup_alInsert_self]

/-! ## `StepRel` infrastructure -/

theorem StepRel.refl (w : World) (bound : Nat) (st : LoaderState) : StepRel w bound st st :=
  ⟨fun _ h => h, fun _ h => h, fun h => h, fun h _ => h⟩

theorem StepRel.trans {w : World} {bound : Nat} {st st' st'' : LoaderState}
    (h1 : StepRel w bound st st') (h2 : StepRel w bound st' st'') :
    StepRel w bound st st'' := by
  obtain ⟨p1, e1, w1, f1⟩ := h1
  obtain ⟨p2, e2, w2, f2⟩ := h2
  refine ⟨fun k hk => p2 k (p1 k hk), fun e he => e2 e (e1 e he), fun h => w2 (w1 h), ?_⟩
  intro hoof hmiss
  have hstOof : st'.outOfFuel = false := f1 hoof hmiss
  have hm' : missing w st' ≤ missing w st := missing_mono w st st' p1
  exact f2 hstOof (lt_of_le_of_lt hm' hmiss)

/-- A transformation that does not touch the index, can only add errors and
does not touch the fuel marker is a good step. -/
theorem StepRel.of_components {w : World} {bound : Nat} {st st' : LoaderState}
    (hlis : st'.lis = st.lis)
    (herr : ∀ e, e ∈ st.errors → e ∈ st'.errors)
    (hoof : st'.outOfFuel = st.outOfFuel) : StepRel w bound st st' := by
  refine ⟨?_, herr, ?_, ?_⟩
  · intro k hk
    unfold present at *
    rw [hlis]
    exact hk
  · intro h k
    unfold countKey
    rw [hlis]
    exact h k
  · intro h _
    rw [hoof, h]

theorem StepRel.toLogError (w : World) (bound : Nat) (st : LoaderState) (msg : String) :
    StepRel w bound st (logError st msg) :=
  StepRel.of_components rfl (fun _ he => List.mem_cons_of_mem msg he) rfl

theorem StepRel.memWrite (w : World) (bound : Nat) (st : LoaderState) (m : Nat → Nat) :
    StepRel w bound st { st with mem := m } :=
  StepRel.of_components rfl (fun _ he => he) rfl

theorem StepRel.toUpdateLib (w : World) (bound : Nat) (st : LoaderState) (k : Path)
    (f : LoadedLibrary → LoadedLibrary) : StepRel w bound st (updateLib k f st) := by
  refine ⟨fun q hq => present_update st k f q hq, fun e he => he, ?_, fun h _ => h⟩
  intro h q
  have := countKey_alUpdate k q f st.lis
  unfold Ipasim.updateLib
  simp only [this]
  exact h q

theorem StepRel.toInsert (w : World) (bound : Nat) (st : LoaderState) (k : Path)
    (v : LoadedLibrary) : StepRel w bound st { st with lis := alInsert k v st.lis } := by
  refine ⟨fun q hq => present_insert st k v q hq, fun e he => he, ?_, fun h _ => h⟩
  intro h q
  by_cases hq : k = q
  · subst hq
    simp only [countKey_alInsert_self]
    have := h k
    omega
  · simp only [countKey_alInsert_ne k q v hq]
    exact h q

theorem StepRel.foldl {w : World} {bound : Nat} {β : Type}
    (f : LoaderState → β → LoaderState)
    (hf : ∀ st b, StepRel w bound st (f st b)) :
    ∀ (l : List β) (st : LoaderState), StepRel w bound st (l.foldl f st) := by
  intro l
  induction l with
  | nil => intro st; exact StepRel.refl w bound st
  | cons b t ih => intro st; exact (hf st b).trans (ih (f st b))

/-! ## Step lemmas for the loader phases -/

theorem processRelocation_step (w : World) (bound slide lowAddr vaddr vsize : Nat)
    (rel : Relocation) (st : LoaderState) :
    StepRel w bound st (processRelocation slide lowAddr vaddr vsize st rel) := by
  apply StepRel.of_components
  · simp only [processRelocation, logError]
    split_ifs <;> rfl
  · intro e he
    simp only [processRelocation, logError]
    split_ifs <;> simp [he]
  · simp only [processRelocation, logError]
    split_ifs <;> rfl

theorem processSegment_step (w : World) (bound slide lowAddr : Nat)
    (seg : SegmentCommand) (st : LoaderState) :
    StepRel w bound st (processSegment slide lowAddr st seg) := by
  set S1 :=
    (if protToPerms seg.initProt = 0 then st
     else
      let m1 := writeWords st.mem (seg.vaddr + slide) seg.content
      let m2 :=
        if 4 * seg.content.length < seg.vsize then
          zeroFill m1 (seg.vaddr + slide + 4 * seg.content.length)
            (seg.vsize - 4 * seg.content.length)
        else m1
      { st with mem := m2 }) with hS1
  have hcopy : StepRel w bound st S1 := by
    rw [hS1]
    split_ifs
    · exact StepRel.refl w bound st
    · exact StepRel.memWrite w bound st _
    · exact StepRel.memWrite w bound st _
  have hrel : StepRel w bound S1
      (if slide > 0 then
        seg.relocations.foldl
          (processRelocation slide lowAddr (seg.vaddr + slide) seg.vsize) S1
       else S1) := by
    split_ifs
    · exact StepRel.foldl _
        (fun st' rel => processRelocation_step w bound slide lowAddr
          (seg.vaddr + slide) seg.vsize rel st') seg.relocations S1
    · exact StepRel.refl w bound S1
  exact hcopy.trans hrel

theorem segRangeFold_state : ∀ (segs : List SegmentCommand) (acc : Nat × Nat × LoaderState),
    ((segs.foldl segRange acc).2.2).lis = acc.2.2.lis ∧
    (∀ e, e ∈ acc.2.2.errors → e ∈ ((segs.foldl segRange acc).2.2).errors) ∧
    ((segs.foldl segRange acc).2.2).outOfFuel = acc.2.2.outOfFuel := by
  intro segs
  induction segs with
  | nil => intro acc; exact ⟨rfl, fun _ h => h, rfl⟩
  | cons seg t ih =>
    intro acc
    have hstep :
        ((segRange acc seg).2.2).lis = acc.2.2.lis ∧
        (∀ e, e ∈ acc.2.2.errors → e ∈ ((segRange acc seg).2.2).errors) ∧
        ((segRange acc seg).2.2).outOfFuel = acc.2.2.outOfFuel := by
      simp only [segRange, logError]
      split_ifs <;> exact ⟨rfl, fun e he => by simp [he], rfl⟩
    obtain ⟨l1, e1, o1⟩ := hstep
    obtain ⟨l2, e2, o2⟩ := ih (segRange acc seg)
    exact ⟨l2.trans l1, fun e he => e2 e (e1 e he), o2.trans o1⟩

theorem machOHeaderChecks_step (w : World) (bound : Nat) (m : MachOFile) (st : LoaderState) :
    StepRel w bound st (machOHeaderChecks m st) := by
  apply StepRel.of_components
  · simp only [machOHeaderChecks, logError]
    split_ifs <;> rfl
  · intro e he
    simp only [machOHeaderChecks, logError]
    split_ifs <;> simp [he]
  · simp only [machOHeaderChecks, logError]
    split_ifs <;> rfl

theorem processBinding_step {w : World} {bound : Nat}
    {g : LoaderState → Path → LoaderState × Option Path}
    (hg : LoadOK w g bound) (slide : Nat) (key : Path) (b : BindingInfo)
    (st : LoaderState) : StepRel w bound st (processBinding g slide key st b) := by
  have hstep := (hg st b.libraryName).1
  unfold processBinding
  by_cases h1 : (b.bindingClass ≠ BIND_CLASS_STANDARD ∧ b.bindingClass ≠ BIND_CLASS_LAZY) ∨
      b.bindingType ≠ BIND_TYPE_POINTER ∨ b.addend ≠ 0
  · rw [if_pos h1]
    exact StepRel.toLogError w bound st _
  · rw [if_neg h1]
    by_cases h2 : ¬b.hasLibrary
    · rw [if_pos h2]
      exact StepRel.toLogError w bound st _
    · rw [if_neg h2]
      rcases hres : (g st b.libraryName).2 with _ | k
      · simp only [hres]
        exact hstep.trans (StepRel.toLogError w bound _ _)
      · simp only [hres]
        split_ifs <;>
          first
          | exact hstep.trans (StepRel.toLogError w bound _ _)
          | exact hstep.trans (StepRel.memWrite w bound _ _)

/-- The post-bounds pipeline of `machOTail` — allocation check, record
update, segment mapping, dependency loading, binding resolution — is a good
step from any state, for any values of the computed constants. -/
theorem machOChain_step {w : World} {bound : Nat}
    {g : LoaderState → Path → LoaderState × Option Path}
    (hg : LoadOK w g bound) (path : Path) (m : MachOFile)
    (lowAddr size base slide : Nat) (B : LoaderState) :
    StepRel w bound B
      (m.bindings.foldl (processBinding g slide path)
        (m.libraries.foldl (fun st' lib => (g st' lib).1)
          (m.segments.foldl (processSegment slide lowAddr)
            (updateLib path (fun r => { r with startAddress := slide, size := size })
              (if base = 0 then logError B "could not allocate memory for segments"
               else B))))) := by
  have c1 : StepRel w bound B
      (if base = 0 then logError B "could not allocate memory for segments" else B) := by
    split_ifs
    · exact StepRel.toLogError w bound B _
    · exact StepRel.refl w bound B
  have c2 := c1.trans (StepRel.toUpdateLib w bound _ path
    (fun r => { r with startAddress := slide, size := size }))
  have c3 := c2.trans (StepRel.foldl _
    (fun st' seg => processSegment_step w bound slide lowAddr seg st') m.segments _)
  have c4 := c3.trans (StepRel.foldl _
    (fun st' lib => (hg st' lib).1) m.libraries _)
  exact c4.trans (StepRel.foldl _
    (fun st' b => processBinding_step hg slide path b st') m.bindings _)

/-- Lemma: `machOTail` is a good step on the state. -/
theorem machOTail_step {w : World} {bound : Nat}
    {g : LoaderState → Path → LoaderState × Option Path}
    (hg : LoadOK w g bound) (path : Path) (m : MachOFile) (st : LoaderState) :
    StepRel w bound st (machOTail w g path m st).1 := by
  have hb := segRangeFold_state m.segments (2 ^ 64 - 1, 0, st)
  have h1 : StepRel w bound st (m.segments.foldl segRange (2 ^ 64 - 1, 0, st)).2.2 :=
    StepRel.of_components hb.1 hb.2.1 hb.2.2
  exact h1.trans (machOChain_step hg path m
    (m.segments.foldl segRange (2 ^ 64 - 1, 0, st)).1
    (sub64 (m.segments.foldl segRange (2 ^ 64 - 1, 0, st)).2.1
      (m.segments.foldl segRange (2 ^ 64 - 1, 0, st)).1)
    (w.alloc (sub64 (m.segments.foldl segRange (2 ^ 64 - 1, 0, st)).2.1
      (m.segments.foldl segRange (2 ^ 64 - 1, 0, st)).1))
    (sub64 (w.alloc (sub64 (m.segments.foldl segRange (2 ^ 64 - 1, 0, st)).2.1
        (m.segments.foldl segRange (2 ^ 64 - 1, 0, st)).1))
      (m.segments.foldl segRange (2 ^ 64 - 1, 0, st)).1)
    (m.segments.foldl segRange (2 ^ 64 - 1, 0, st)).2.2)

/-- Lemma: `machOTail` always returns the inserted record. -/
theorem machOTail_snd (w : World) (g : LoaderState → Path → LoaderState × Option Path)
    (path : Path) (m : MachOFile) (st : LoaderState) :
    (machOTail w g path m st).2 = some path := rfl

/-- Lemma: `loadPE` is a good step and a non-null result is the inserted path
(assuming, as `load` guarantees at its call site, a cache miss). -/
theorem loadPE_cases (w : World) (bound : Nat) (st : LoaderState) (path : Path) (d : PEFile)
    (hnp : alLookup st.lis path = none) :
    StepRel w bound st (loadPE st path d).1 ∧
    (∀ k, (loadPE st path d).2 = some k → k = path ∧ present (loadPE st path d).1 k) := by
  unfold loadPE
  by_cases hld : ¬d.loadOk
  · rw [if_pos hld]
    refine ⟨StepRel.of_components ?_ ?_ ?_, fun k hk => Option.noConfusion hk⟩
    · show alErase path (logError { st with lis := alInsert path (dllInitRecord d) st.lis }
        "could not load DLL").lis = st.lis
      show alErase path (alInsert path (dllInitRecord d) st.lis) = st.lis
      exact alErase_alInsert path (dllInitRecord d) st.lis hnp
    · intro e he
      exact List.mem_cons_of_mem _ he
    · rfl
  · rw [if_neg hld]
    have hins : StepRel w bound st { st with lis := alInsert path (dllInitRecord d) st.lis } :=
      StepRel.toInsert w bound st path (dllInitRecord d)
    have hupd := hins.trans (StepRel.toUpdateLib w bound _ path (fun r => { r with hasPtr := true }))
    by_cases hmi : ¬d.modInfoOk
    · rw [if_pos hmi]
      exact ⟨hupd.trans (StepRel.toLogError w bound _ _), fun k hk => Option.noConfusion hk⟩
    · rw [if_neg hmi]
      have hfin := hupd.trans (StepRel.toUpdateLib w bound _ path (fun r =>
        if d.exports "_mh_dylib_header" ≠ 0 then
          { r with startAddress := d.exports "_mh_dylib_header",
                   size := d.sizeOfImage - (d.exports "_mh_dylib_header" - d.baseOfDll),
                   machOPoser := true }
        else
          { r with startAddress := d.baseOfDll, size := d.sizeOfImage, machOPoser := false }))
      refine ⟨hfin, fun k hk => ?_⟩
      have hk2 : path = k := Option.some.inj hk
      subst hk2
      refine ⟨rfl, ?_⟩
      have h0 : present { st with lis := alInsert path (dllInitRecord d) st.lis } path := by
        unfold present
        simp [alLookup_alInsert_self]
      exact present_update _ _ _ _ (present_update _ _ _ _ h0)

/-- One unfolding of the loader: if the recursive call satisfies the bundle
at `bound`, the body satisfies it at `bound + 1`. -/
theorem loadCore_ok {w : World} {bound : Nat}
    {g : LoaderState → Path → LoaderState × Option Path}
    (hg : LoadOK w g bound) : LoadOK w (loadCore w g) (bound + 1) := by
  intro st p
  unfold loadCore
  rcases hcache : alLookup st.lis (resolvePath p).Path with _ | r
  · -- cache miss
    simp only [hcache]
    rcases hfs : alLookup w.fs (resolvePath p).Path with _ | fk
    · simp only [hfs]
      exact ⟨StepRel.toLogError w (bound + 1) st _, fun k hk => Option.noConfusion hk⟩
    · simp only [hfs]
      have hmem : (resolvePath p).Path ∈ w.fs.map Prod.fst :=
        alLookup_some_mem_keys _ fk _ hfs
      cases fk with
      | macho m =>
        -- `loadMachO`: insert first, then header checks and the tail
        have hins := StepRel.toInsert w bound st (resolvePath p).Path (dylibInitRecord m)
        have hHT : StepRel w bound
            { st with lis := alInsert (resolvePath p).Path (dylibInitRecord m) st.lis }
            (loadMachO w g st (resolvePath p).Path m).1 :=
          (machOHeaderChecks_step w bound m _).trans
            (machOTail_step hg (resolvePath p).Path m _)
        have hsnd : (loadMachO w g st (resolvePath p).Path m).2 = some (resolvePath p).Path :=
          rfl
        simp only [hsnd]
        have hpresPath : present (loadMachO w g st (resolvePath p).Path m).1
            (resolvePath p).Path := by
          refine hHT.1 _ ?_
          unfold present
          simp [alLookup_alInsert_self]
        refine ⟨⟨?_, ?_, ?_, ?_⟩, fun k hk => ?_⟩
        · intro k hk
          exact present_update _ _ _ _ (hHT.1 k (hins.1 k hk))
        · intro e he
          exact hHT.2.1 e (hins.2.1 e he)
        · intro hwf
          exact (StepRel.toUpdateLib w bound (loadMachO w g st (resolvePath p).Path m).1
            (resolvePath p).Path
            (fun rec0 => { rec0 with isWrapperDLL := isGenWrapper (resolvePath p) })).2.2.1
            (hHT.2.2.1 (hins.2.2.1 hwf))
        · intro hoof hmiss
          have hIlt := missing_insert_lt w st (resolvePath p).Path (dylibInitRecord m)
            hmem hcache
          exact hHT.2.2.2 hoof (by omega)
        · have hk2 : (resolvePath p).Path = k := Option.some.inj hk
          subst hk2
          exact ⟨rfl, present_update _ _ _ _ hpresPath⟩
      | pe d =>
        obtain ⟨hstep, hres⟩ := loadPE_cases w (bound + 1) st (resolvePath p).Path d hcache
        rcases hpe : (loadPE st (resolvePath p).Path d).2 with _ | k
        · simp only [hpe]
          exact ⟨hstep, fun k hk => Option.noConfusion hk⟩
        · simp only [hpe]
          obtain ⟨hkp, hpres⟩ := hres k hpe
          refine ⟨hstep.trans (StepRel.toUpdateLib w (bound + 1) _ k
            (fun rec0 => { rec0 with isWrapperDLL := isGenWrapper (resolvePath p) })),
            fun k2 hk2 => ?_⟩
          have hkk : k = k2 := Option.some.inj hk2
          subst hkk
          exact ⟨hkp, present_update _ _ _ _ hpres⟩
      | unknownMagic =>
        simp only []
        exact ⟨StepRel.toLogError w (bound + 1) st _, fun k hk => Option.noConfusion hk⟩
  · -- cache hit: return the stored record, touch nothing
    simp only [hcache]
    refine ⟨StepRel.refl w (bound + 1) st, fun k hk => ?_⟩
    have hk2 : (resolvePath p).Path = k := Option.some.inj hk
    subst hk2
    refine ⟨rfl, ?_⟩
    unfold present
    simp [hcache]

/-- The main induction: `load fuel w` satisfies the bundle at `fuel`. -/
theorem load_ok (w : World) : ∀ fuel : Nat, LoadOK w (load fuel w) fuel := by
  intro fuel
  induction fuel with
  | zero =>
    intro st p
    refine ⟨⟨fun k hk => hk, fun e he => he, fun h => h, fun _ h => absurd h (by omega)⟩,
      fun k hk => Option.noConfusion hk⟩
  | succ fuel ih =>
    intro st p
    exact loadCore_ok ih st p

/-! ## Loader unfolding lemmas -/

/-- A cache hit returns the stored record and leaves the state untouched. -/
theorem load_cache_hit (w : World) (f : Nat) (st : LoaderState) (p : Path) (r : LoadedLibrary)
    (h : alLookup st.lis (resolvePath p).Path = some r) :
    load (f + 1) w st p = (st, some ((resolvePath p).Path)) := by
  show loadCore w (fun st' q => load f w st' q) st p = _
  unfold loadCore
  simp only [h]

/-- Loading an uncached Mach-O runs `loadMachO` and tags the result record. -/
theorem load_macho_unfold (w : World) (f : Nat) (st : LoaderState) (p : Path) (m : MachOFile)
    (hcache : alLookup st.lis (resolvePath p).Path = none)
    (hfs : alLookup w.fs (resolvePath p).Path = some (.macho m)) :
    load (f + 1) w st p =
      (updateLib (resolvePath p).Path
        (fun rec0 => { rec0 with isWrapperDLL := isGenWrapper (resolvePath p) })
        (loadMachO w (fun st' q => load f w st' q) st (resolvePath p).Path m).1,
       some ((resolvePath p).Path)) := by
  show loadCore w (fun st' q => load f w st' q) st p = _
  unfold loadCore
  simp only [hcache, hfs]
  rfl

/-! ## LR-stack lemmas (C8 support) -/

theorem runOps_append (ka : Nat) :
    ∀ (a b : List EmuOp) (st : TransState),
      runOps ka st (a ++ b) = runOps ka (runOps ka st a) b := by
  intro a
  induction a with
  | nil => intro b st; rfl
  | cons op t ih =>
    intro b st
    cases op with
    | enter => exact ih b (executeEntry ka st)
    | ret => exact ih b (returnToKernel st)

theorem runOps_depth (ka : Nat) :
    ∀ (ops : List EmuOp) (st : TransState), noUnderflow st.lrs.length ops = true →
      (runOps ka st ops).lrs.length + countRets ops = st.lrs.length + countEnters ops := by
  intro ops
  induction ops with
  | nil => intro st _; simp [runOps, countRets, countEnters]
  | cons op t ih =>
    intro st hops
    cases op with
    | enter =>
      have hlen : (executeEntry ka st).lrs.length = st.lrs.length + 1 := by
        simp [executeEntry]
      have hrec : noUnderflow (executeEntry ka st).lrs.length t = true := by
        rw [hlen]
        simpa [noUnderflow] using hops
      have hthis := ih (executeEntry ka st) hrec
      show (runOps ka (executeEntry ka st) t).lrs.length + countRets t =
        st.lrs.length + (countEnters t + 1)
      omega
    | ret =>
      simp only [noUnderflow, Bool.and_eq_true, decide_eq_true_eq] at hops
      rcases hlrs : st.lrs with _ | ⟨l, rest⟩
      · rw [hlrs] at hops
        simp at hops
      · have hlen : (returnToKernel st).lrs.length = rest.length := by
          unfold returnToKernel
          rw [hlrs]
        have hrec : noUnderflow (returnToKernel st).lrs.length t = true := by
          rw [hlen]
          have h2 := hops.2
          rw [hlrs] at h2
          simpa using h2
        have hthis := ih (returnToKernel st) hrec
        have hstep : runOps ka st (EmuOp.ret :: t) = runOps ka (returnToKernel st) t := rfl
        rw [hstep]
        simp only [countRets, countEnters, List.length_cons]
        omega

theorem runOps_bottom (ka : Nat) :
    ∀ (ops : List EmuOp) (top bottom : List Nat) (st : TransState),
      st.lrs = top ++ bottom → noUnderflow top.length ops = true →
      ∃ top', (runOps ka st ops).lrs = top' ++ bottom ∧
        top'.length + countRets ops = top.length + countEnters ops := by
  intro ops
  induction ops with
  | nil =>
    intro top bottom st hlrs _
    exact ⟨top, by simpa [runOps] using hlrs, by simp [countRets, countEnters]⟩
  | cons op t ih =>
    intro top bottom st hlrs hops
    cases op with
    | enter =>
      have hlrs' : (executeEntry ka st).lrs = (st.lr :: top) ++ bottom := by
        simp [executeEntry, hlrs]
      have hops' : noUnderflow (st.lr :: top).length t = true := by
        simpa [noUnderflow] using hops
      obtain ⟨top', h1, h2⟩ := ih (st.lr :: top) bottom (executeEntry ka st) hlrs' hops'
      refine ⟨top', h1, ?_⟩
      simp only [List.length_cons] at h2
      simp only [countRets, countEnters]
      omega
    | ret =>
      simp only [noUnderflow, Bool.and_eq_true, decide_eq_true_eq] at hops
      rcases top with _ | ⟨x, top0⟩
      · simp at hops
      · have hlrs' : (returnToKernel st).lrs = top0 ++ bottom := by
          unfold returnToKernel
          rw [hlrs]
          rfl
        have hops' : noUnderflow top0.length t = true := by
          have := hops.2
          simpa using this
        obtain ⟨top', h1, h2⟩ := ih top0 bottom (returnToKernel st) hlrs' hops'
        refine ⟨top', h1, ?_⟩
        simp only [countRets, countEnters, List.length_cons]
        omega

/-! ## DynamicCaller lemmas (C7 support) -/

theorem loadArgN_invariant (emu : Emu) :
    ∀ (n k : Nat),
      loadArgN emu n ⟨min k 4, (List.range k).map (aapcsWord emu)⟩ =
        ⟨min (k + n) 4, (List.range (k + n)).map (aapcsWord emu)⟩ := by
  intro n
  induction n with
  | zero => intro k; simp [loadArgN]
  | succ n ih =>
    intro k
    have hstep : loadArgWord emu ⟨min k 4, (List.range k).map (aapcsWord emu)⟩ =
        ⟨min (k + 1) 4, (List.range (k + 1)).map (aapcsWord emu)⟩ := by
      unfold loadArgWord
      by_cases hk : k < 4
      · rw [if_pos (show min k 4 ≤ 3 by omega)]
        have hmin : min k 4 = k := by omega
        have hmin2 : min (k + 1) 4 = k + 1 := by omega
        simp only [hmin, hmin2]
        rw [List.range_succ, List.map_append]
        simp only [List.map_cons, List.map_nil]
        unfold aapcsWord
        rw [if_pos hk]
      · rw [if_neg (show ¬ min k 4 ≤ 3 by omega)]
        have hmin2 : min (k + 1) 4 = min k 4 := by omega
        simp only [List.length_map, List.length_range, hmin2]
        rw [List.range_succ, List.map_append]
        simp only [List.map_cons, List.map_nil]
        unfold aapcsWord
        rw [if_neg hk]
    show loadArgN emu n (loadArgWord emu ⟨min k 4, (List.range k).map (aapcsWord emu)⟩) = _
    rw [hstep]
    have := ih (k + 1)
    rwa [show k + 1 + n = k + (n + 1) by omega] at this

theorem loadArgN_args (emu : Emu) (n : Nat) :
    loadArgN emu n dcInit = ⟨min n 4, (List.range n).map (aapcsWord emu)⟩ := by
  have := loadArgN_invariant emu n 0
  simpa [dcInit] using this

theorem loadArgN_add (emu : Emu) :
    ∀ (a b : Nat) (dc : DCState),
      loadArgN emu (a + b) dc = loadArgN emu b (loadArgN emu a dc) := by
  intro a
  induction a with
  | zero => intro b dc; simp [loadArgN]
  | succ a ih =>
    intro b dc
    have h1 : a + 1 + b = (a + b) + 1 := by omega
    rw [h1]
    show loadArgN emu (a + b) (loadArgWord emu dc) = _
    rw [ih b (loadArgWord emu dc)]
    rfl

theorem loadArg_foldl (emu : Emu) :
    ∀ (sizes : List Nat) (dc : DCState),
      sizes.foldl (fun dc s => loadArg emu s dc) dc =
        loadArgN emu ((sizes.map (· / 4)).sum) dc := by
  intro sizes
  induction sizes with
  | nil => intro dc; simp [loadArgN]
  | cons s t ih =>
    intro dc
    show t.foldl _ (loadArg emu s dc) = _
    rw [ih (loadArg emu s dc)]
    unfold loadArg
    rw [← loadArgN_add]
    simp [Nat.add_comm]

/-! ## Claim theorems -/

/-- C6: path resolution is idempotent — `resolvePath (resolvePath p).Path =
resolvePath p` for every input — and every path beginning with `/` resolves
to a relative path beginning with `gen` plus the host separator, while any
other path is returned verbatim with relativity decided by the OS. -/
theorem claim_C6 :
    (∀ p : Path, resolvePath (resolvePath p).Path = resolvePath p) ∧
    (∀ rest : List Char, (resolvePath ('/' :: rest)).Relative = true ∧
      ∃ tail, (resolvePath ('/' :: rest)).Path = 'g' :: 'e' :: 'n' :: '\\' :: tail) ∧
    (∀ (c : Char) (rest : List Char), c ≠ '/' →
      resolvePath (c :: rest) = ⟨c :: rest, isRelativeWin (c :: rest)⟩) ∧
    resolvePath [] = ⟨[], isRelativeWin []⟩ := by
  have habs : ∀ rest : List Char,
      resolvePath ('/' :: rest) =
        ⟨'g' :: 'e' :: 'n' :: '\\' :: makePreferred rest, true⟩ := by
    intro rest
    simp [resolvePath, makePreferred]
  have hother : ∀ (c : Char) (rest : List Char), c ≠ '/' →
      resolvePath (c :: rest) = ⟨c :: rest, isRelativeWin (c :: rest)⟩ := by
    intro c rest hc
    simp [resolvePath, hc]
  have hgenrel : ∀ t : List Char,
      isRelativeWin ('g' :: 'e' :: 'n' :: '\\' :: t) = true := by
    intro t
    simp [isRelativeWin, isAbsoluteWin, isSep]
  refine ⟨?_, ?_, hother, rfl⟩
  · intro p
    rcases p with _ | ⟨c, rest⟩
    · rfl
    · by_cases hc : c = '/'
      · subst hc
        rw [habs rest]
        show resolvePath ('g' :: 'e' :: 'n' :: '\\' :: makePreferred rest) = _
        rw [hother 'g' _ (by decide), hgenrel]
      · rw [hother c rest hc]
        show resolvePath (c :: rest) = _
        rw [hother c rest hc]
  · intro rest
    rw [habs rest]
    exact ⟨rfl, makePreferred rest, rfl⟩

/-- C6 witness: idempotence and the verbatim case at concrete inputs. -/
theorem claim_C6_witness :
    resolvePath ((resolvePath ('/' :: "usr".data)).Path) = resolvePath ('/' :: "usr".data) ∧
    resolvePath ('x' :: []) = ⟨'x' :: [], isRelativeWin ('x' :: [])⟩ :=
  ⟨claim_C6.1 ('/' :: "usr".data), claim_C6.2.2.1 'x' [] (by decide)⟩

/-- C3 (amended): for the encodings `v`, `c@:iIf`, `^i`, `{S=ii}` and `{S=}`
the decoder yields valid sizes summing to 0, 24, 4, 8 and 0; for `{S=^v i}`
the space is not a recognised encoding, so both calls return the invalid
sentinel (`none`) rather than sizes summing to 8. -/
theorem claim_C3 :
    decodeSizes "v".data = [some 0] ∧
    sumSizes (decodeSizes "v".data) = 0 ∧
    decodeSizes "c@:iIf".data = [some 4, some 4, some 4, some 4, some 4, some 4] ∧
    sumSizes (decodeSizes "c@:iIf".data) = 4 + 4 + 4 + 4 + 4 + 4 ∧
    decodeSizes "^i".data = [some 4] ∧
    sumSizes (decodeSizes "^i".data) = 4 ∧
    decodeSizes "\x7bS=ii\x7d".data = [some 8] ∧
    sumSizes (decodeSizes "\x7bS=ii\x7d".data) = 8 ∧
    decodeSizes "\x7bS=\x7d".data = [some 0] ∧
    sumSizes (decodeSizes "\x7bS=\x7d".data) = 0 ∧
    allValid (decodeSizes "v".data) = true ∧
    allValid (decodeSizes "c@:iIf".data) = true ∧
    allValid (decodeSizes "^i".data) = true ∧
    allValid (decodeSizes "\x7bS=ii\x7d".data) = true ∧
    allValid (decodeSizes "\x7bS=\x7d".data) = true ∧
    decodeSizes "\x7bS=^v i\x7d".data = [none, none] := by
  decide

/-- C3 counterexample: on `{S=^v i}` the claimed behaviour — valid sizes
summing to 8 — does not hold; the decoder returns the invalid sentinel. -/
theorem claim_C3_counterexample :
    ¬ (allValid (decodeSizes "\x7bS=^v i\x7d".data) = true ∧
       sumSizes (decodeSizes "\x7bS=^v i\x7d".data) = 8) := by
  decide

theorem processRelocation_mem (slide lowAddr vaddr vsize : Nat) (st : LoaderState)
    (rel : Relocation) :
    (processRelocation slide lowAddr vaddr vsize st rel).mem =
      if st.mem (lowAddr + slide + rel.address) ≠ 0 then
        wordWrite st.mem (lowAddr + slide + rel.address)
          ((st.mem (lowAddr + slide + rel.address) + slide) % 2 ^ 32)
      else st.mem := by
  simp only [processRelocation, logError, apply_ite LoaderState.mem]
  split_ifs <;> rfl

theorem processRelocation_errors (slide lowAddr vaddr vsize : Nat) (st : LoaderState)
    (rel : Relocation)
    (hout : lowAddr + slide + rel.address > vaddr + vsize ∨
      lowAddr + slide + rel.address < vaddr) :
    "relocation target out of range" ∈
      (processRelocation slide lowAddr vaddr vsize st rel).errors := by
  simp only [processRelocation, logError, apply_ite LoaderState.errors,
    apply_ite LoaderState.mem]
  rw [if_pos hout]
  split_ifs <;> simp

/-- C4 (amended): for a slid image, a relocation whose non-zero target word
lies at `LowAddr + Slide + address` gets the slide added modulo `2^32`, a
zero word is untouched and other addresses are unchanged; a target outside
the segment's range only logs the non-fatal "relocation target out of range"
— the word is still modified, not skipped. -/
theorem claim_C4 (slide lowAddr vaddr vsize : Nat) (st : LoaderState) (rel : Relocation)
    (_hs : 0 < slide) :
    (st.mem (lowAddr + slide + rel.address) ≠ 0 →
      (processRelocation slide lowAddr vaddr vsize st rel).mem
          (lowAddr + slide + rel.address) =
        (st.mem (lowAddr + slide + rel.address) + slide) % 2 ^ 32) ∧
    (st.mem (lowAddr + slide + rel.address) = 0 →
      (processRelocation slide lowAddr vaddr vsize st rel).mem
          (lowAddr + slide + rel.address) =
        st.mem (lowAddr + slide + rel.address)) ∧
    ((lowAddr + slide + rel.address > vaddr + vsize ∨
        lowAddr + slide + rel.address < vaddr) →
      "relocation target out of range" ∈
        (processRelocation slide lowAddr vaddr vsize st rel).errors) ∧
    (∀ a, a ≠ lowAddr + slide + rel.address →
      (processRelocation slide lowAddr vaddr vsize st rel).mem a = st.mem a) := by
  have hmem := processRelocation_mem slide lowAddr vaddr vsize st rel
  refine ⟨?_, ?_, ?_, ?_⟩
  · intro hnz
    rw [hmem, if_pos hnz]
    simp [wordWrite]
  · intro hz
    rw [hmem, if_neg (by simp [hz])]
  · intro hout
    exact processRelocation_errors slide lowAddr vaddr vsize st rel hout
  · intro a ha
    rw [hmem]
    split_ifs
    · simp [wordWrite, ha]
    · rfl

/-- C4 counterexample: the concrete relocation `relC4` targets address
12288, outside the checked range `[4096, 8192]`; the claim says this is
fatal and the stored word is not modified, yet the code logs a non-fatal
error and still adds the slide (100 becomes 4196). -/
theorem claim_C4_counterexample :
    ((4096 : Nat) + 4096 < 12288) ∧
    "relocation target out of range" ∈
      (processRelocation 4096 0 4096 4096 stC4 relC4).errors ∧
    (processRelocation 4096 0 4096 4096 stC4 relC4).mem 12288 = 4196 ∧
    ¬ (processRelocation 4096 0 4096 4096 stC4 relC4).mem 12288 = stC4.mem 12288 := by
  refine ⟨by decide, ?_, by decide, by decide⟩
  decide

/-- C4 witness: the amended theorem applied to the in-range relocation
`relC4b` (non-zero word 100 at target 4196 becomes 4196). -/
theorem claim_C4_witness :
    (processRelocation 4096 0 4096 4096 stC4b relC4b).mem 4196 = (100 + 4096) % 2 ^ 32 := by
  have h := (claim_C4 4096 0 4096 4096 stC4b relC4b (by decide)).1 (by decide)
  simpa using h

/-- C7: `DynamicCaller` stages argument words in order — the first four from
guest `R0..R3`, each subsequent word `i ≥ 4` from the guest stack at
`SP + (i-4)*4` — and `call` dispatches for arities 0..6, writing the 32-bit
return value to guest `R0` when `Returns` is set, while an arity above 6
reports "function has too many arguments" and returns false without
calling. -/
theorem claim_C7 (emu : Emu) (sizes : List Nat)
    (hostCall : Nat → List Nat → Nat) (returns : Bool) (faddr : Nat)
    (_h4 : ∀ s ∈ sizes, s % 4 = 0) :
    (sizes.foldl (fun dc s => loadArg emu s dc) dcInit).args =
      (List.range ((sizes.map (· / 4)).sum)).map (aapcsWord emu) ∧
    (∀ dc : DCState, dc.args.length ≤ 6 →
      (dcCall hostCall emu dc returns faddr).ok = true ∧
      (dcCall hostCall emu dc returns faddr).calls = [(faddr, dc.args)] ∧
      (returns = true →
        (dcCall hostCall emu dc returns faddr).emu.regs 0 = hostCall faddr dc.args) ∧
      (returns = false → (dcCall hostCall emu dc returns faddr).emu = emu)) ∧
    (∀ dc : DCState, 6 < dc.args.length →
      (dcCall hostCall emu dc returns faddr).ok = false ∧
      (dcCall hostCall emu dc returns faddr).calls = [] ∧
      (dcCall hostCall emu dc returns faddr).emu = emu ∧
      "function has too many arguments" ∈ (dcCall hostCall emu dc returns faddr).errors) := by
  refine ⟨?_, ?_, ?_⟩
  · rw [loadArg_foldl, loadArgN_args]
  · intro dc hle
    unfold dcCall
    rw [if_pos hle]
    refine ⟨rfl, rfl, ?_, ?_⟩
    · intro hr
      subst hr
      simp [writeReg]
    · intro hr
      subst hr
      rfl
  · intro dc hgt
    unfold dcCall
    rw [if_neg (by omega)]
    exact ⟨rfl, rfl, rfl, by simp⟩

/-- C7 witness: staging five sizes (16 bytes of registers plus an 8-byte
struct) pulls `R0..R3` then two stack words, and the arity checks at
concrete `DynamicCaller` states. -/
theorem claim_C7_witness :
    ([4, 4, 4, 4, 8].foldl (fun dc s => loadArg emuC7 s dc) dcInit).args =
      (List.range (([4, 4, 4, 4, 8].map (· / 4)).sum)).map (aapcsWord emuC7) ∧
    (dcCall (fun a args => a + args.length) emuC7 ⟨4, [1, 2, 3, 4]⟩ true 9).emu.regs 0 =
      (fun (a : Nat) (args : List Nat) => a + args.length) 9 [1, 2, 3, 4] ∧
    (dcCall (fun a args => a + args.length) emuC7 ⟨4, [1, 2, 3, 4, 5, 6, 7]⟩ true 9).ok =
      false := by
  have h := claim_C7 emuC7 [4, 4, 4, 4, 8] (fun a args => a + args.length) true 9 (by decide)
  exact ⟨h.1, (h.2.1 ⟨4, [1, 2, 3, 4]⟩ (by decide)).2.2.1 rfl,
    (h.2.2 ⟨4, [1, 2, 3, 4, 5, 6, 7]⟩ (by decide)).1⟩

/-- C8: the LR stack is LIFO and tied to emulation entries — `execute`
pushes the current guest `LR` and replaces it with `KernelAddr` before
starting, `returnToKernel` pops exactly the most recently pushed value back
into `LR`, and after any underflow-free sequence of entries and returns the
stack depth equals the number of un-returned entries. -/
theorem claim_C8 (ka : Nat) (st : TransState) (ops : List EmuOp)
    (h : noUnderflow st.lrs.length ops = true) :
    (runOps ka st ops).lrs.length + countRets ops = st.lrs.length + countEnters ops ∧
    ((executeEntry ka st).lrs = st.lr :: st.lrs ∧ (executeEntry ka st).lr = ka) ∧
    (∀ (st2 : TransState) (l : Nat) (rest : List Nat), st2.lrs = l :: rest →
      returnToKernel st2 = { st2 with lr := l, lrs := rest, running := false }) ∧
    (∀ ops2 : List EmuOp, noUnderflow 0 ops2 = true → countEnters ops2 = countRets ops2 →
      (runOps ka st (EmuOp.enter :: ops2 ++ [EmuOp.ret])).lr = st.lr ∧
      (runOps ka st (EmuOp.enter :: ops2 ++ [EmuOp.ret])).lrs = st.lrs) := by
  refine ⟨runOps_depth ka ops st h, ⟨rfl, rfl⟩, ?_, ?_⟩
  · intro st2 l rest h2
    unfold returnToKernel
    rw [h2]
  · intro ops2 hnu hcnt
    have hrw : runOps ka st (EmuOp.enter :: ops2 ++ [EmuOp.ret]) =
        runOps ka (runOps ka (executeEntry ka st) ops2) [EmuOp.ret] := by
      show runOps ka (executeEntry ka st) (ops2 ++ [EmuOp.ret]) = _
      exact runOps_append ka ops2 [EmuOp.ret] (executeEntry ka st)
    obtain ⟨top', hlrs, hlen⟩ := runOps_bottom ka ops2 [] (st.lr :: st.lrs)
      (executeEntry ka st) (by simp [executeEntry]) (by simpa using hnu)
    have htop : top' = [] := by
      have hl : top'.length = 0 := by
        simp only [List.length_nil] at hlen
        omega
      exact List.eq_nil_of_length_eq_zero hl
    subst htop
    rw [hrw]
    have hlrs2 : (runOps ka (executeEntry ka st) ops2).lrs = st.lr :: st.lrs := by
      simpa using hlrs
    show ((returnToKernel (runOps ka (executeEntry ka st) ops2)).lr = st.lr ∧
      (returnToKernel (runOps ka (executeEntry ka st) ops2)).lrs = st.lrs)
    unfold returnToKernel
    rw [hlrs2]
    exact ⟨rfl, rfl⟩

/-- C8 witness: a nested enter/enter/ret/ret sequence from an empty stack,
and LR restoration around a balanced inner sequence. -/
theorem claim_C8_witness :
    (runOps 5 stT [EmuOp.enter, EmuOp.enter, EmuOp.ret, EmuOp.ret]).lrs.length +
        countRets [EmuOp.enter, EmuOp.enter, EmuOp.ret, EmuOp.ret] =
      stT.lrs.length + countEnters [EmuOp.enter, EmuOp.enter, EmuOp.ret, EmuOp.ret] ∧
    (runOps 5 stT (EmuOp.enter :: [EmuOp.enter, EmuOp.ret] ++ [EmuOp.ret])).lr = stT.lr := by
  have h := claim_C8 5 stT [EmuOp.enter, EmuOp.enter, EmuOp.ret, EmuOp.ret] (by decide)
  exact ⟨h.1, (h.2.2.2 [EmuOp.enter, EmuOp.ret] (by decide) (by decide)).1⟩

/-- The three header-check errors are logged by `machOHeaderChecks`. -/
theorem machOHeaderChecks_errors (m : MachOFile) (st : LoaderState) :
    (m.header.cpuType ≠ CPU_TYPE_ARM →
      "expected ARM binary" ∈ (machOHeaderChecks m st).errors) ∧
    (m.header.splitSegs = true →
      "MH_SPLIT_SEGS not supported" ∈ (machOHeaderChecks m st).errors) ∧
    (¬canSegmentsSlide m.header →
      "the binary is not slideable" ∈ (machOHeaderChecks m st).errors) := by
  refine ⟨?_, ?_, ?_⟩
  · intro hcpu
    simp only [machOHeaderChecks, logError]
    rw [if_pos hcpu]
    split_ifs <;> simp
  · intro hss
    simp only [machOHeaderChecks, logError]
    rw [if_pos hss]
    split_ifs <;> simp
  · intro hsl
    simp only [machOHeaderChecks, logError]
    rw [if_pos hsl]
    split_ifs <;> simp

/-- C2 (amended): `loadMachO` does *not* reject a binary with a non-ARM CPU
type, the `MH_SPLIT_SEGS` flag, or a non-slideable file type — for every
such input the specific error is logged through the non-fatal `error` sink,
but loading continues and `load` returns the (non-null) record; `load`
returns null only for missing files and unknown magic. -/
theorem claim_C2 (w : World) (st : LoaderState) (p : Path) (m : MachOFile) (fuel : Nat)
    (hf : 0 < fuel)
    (hcache : alLookup st.lis (resolvePath p).Path = none)
    (hfs : alLookup w.fs (resolvePath p).Path = some (.macho m)) :
    (load fuel w st p).2 = some ((resolvePath p).Path) ∧
    (m.header.cpuType ≠ CPU_TYPE_ARM →
      "expected ARM binary" ∈ (load fuel w st p).1.errors) ∧
    (m.header.splitSegs = true →
      "MH_SPLIT_SEGS not supported" ∈ (load fuel w st p).1.errors) ∧
    (¬canSegmentsSlide m.header →
      "the binary is not slideable" ∈ (load fuel w st p).1.errors) := by
  obtain ⟨f, rfl⟩ : ∃ f, fuel = f + 1 := ⟨fuel - 1, by omega⟩
  rw [load_macho_unfold w f st p m hcache hfs]
  have hok : LoadOK w (fun st' q => load f w st' q) f := load_ok w f
  -- errors logged at the header stage survive the tail and the final update
  have htail : ∀ e, e ∈ (machOHeaderChecks m
      { st with lis := alInsert (resolvePath p).Path (dylibInitRecord m) st.lis }).errors →
      e ∈ (loadMachO w (fun st' q => load f w st' q) st (resolvePath p).Path m).1.errors :=
    fun e he => (machOTail_step hok (resolvePath p).Path m _).2.1 e he
  have hhc := machOHeaderChecks_errors m
    { st with lis := alInsert (resolvePath p).Path (dylibInitRecord m) st.lis }
  refine ⟨rfl, ?_, ?_, ?_⟩
  · intro hcpu
    exact htail _ (hhc.1 hcpu)
  · intro hss
    exact htail _ (hhc.2.1 hss)
  · intro hsl
    exact htail _ (hhc.2.2 hsl)

/-- C2 counterexample: the non-ARM Mach-O `mC2` is loaded anyway — the
error is logged but `load` returns a non-null record, refuting "the loader
returns null to the caller". -/
theorem claim_C2_counterexample :
    mC2.header.cpuType ≠ CPU_TYPE_ARM ∧
    (load 1 wC2 st0 "m.dylib".data).2 = some ("m.dylib".data) ∧
    ¬ (load 1 wC2 st0 "m.dylib".data).2 = none ∧
    "expected ARM binary" ∈ (load 1 wC2 st0 "m.dylib".data).1.errors := by
  refine ⟨by decide, by decide, by decide, by decide⟩

/-- C2 witness: the amended theorem at the concrete non-ARM binary. -/
theorem claim_C2_witness :
    (load 1 wC2 st0 "m.dylib".data).2 = some ((resolvePath "m.dylib".data).Path) ∧
    "expected ARM binary" ∈ (load 1 wC2 st0 "m.dylib".data).1.errors := by
  have h := claim_C2 wC2 st0 "m.dylib".data mC2 1 (by decide) rfl rfl
  exact ⟨h.1, h.2.1 (by decide)⟩

/-- C5: `load` is deduplicating — when two paths have equal resolved paths
and the first load returns a record, the second returns the identical record
without touching the state, and the library index holds exactly one entry
for that resolved path. -/
theorem claim_C5 (w : World) (st st1 : LoaderState) (p1 p2 : Path) (fuel1 fuel2 : Nat)
    (r : Path)
    (hwf : WfLis st)
    (hpp : resolvePath p1 = resolvePath p2)
    (h1 : load fuel1 w st p1 = (st1, some r))
    (hf2 : 0 < fuel2) :
    load fuel2 w st1 p2 = (st1, some r) ∧ countKey r st1.lis = 1 := by
  have hbundle := load_ok w fuel1 st p1
  have hsnd : (load fuel1 w st p1).2 = some r := by rw [h1]
  obtain ⟨hrp, hpres⟩ := hbundle.2 r hsnd
  rw [h1] at hpres
  have hwf1 : WfLis st1 := by
    have hh := hbundle.1.2.2.1 hwf
    rwa [h1] at hh
  obtain ⟨f2, rfl⟩ : ∃ f2, fuel2 = f2 + 1 := ⟨fuel2 - 1, by omega⟩
  obtain ⟨v, hv⟩ := Option.isSome_iff_exists.1 hpres
  have hv2 : alLookup st1.lis (resolvePath p2).Path = some v := by
    rw [← hpp, ← hrp]
    exact hv
  have hhit := load_cache_hit w f2 st1 p2 v hv2
  constructor
  · rw [hhit, ← hpp, ← hrp]
  · have hge := (alLookup_isSome_iff r st1.lis).1 hpres
    have hle := hwf1 r
    omega

/-- C5 witness: `/lib/Foo` and `gen\lib\Foo` resolve identically; loading
one then the other returns the same record and the index has one entry. -/
theorem claim_C5_witness :
    load 1 wC5 (load 1 wC5 st0 ('/' :: "lib/Foo".data)).1 "gen\\lib\\Foo".data =
      ((load 1 wC5 st0 ('/' :: "lib/Foo".data)).1, some ("gen\\lib\\Foo".data)) ∧
    countKey "gen\\lib\\Foo".data (load 1 wC5 st0 ('/' :: "lib/Foo".data)).1.lis = 1 := by
  have h := claim_C5 wC5 st0 (load 1 wC5 st0 ('/' :: "lib/Foo".data)).1
    ('/' :: "lib/Foo".data) "gen\\lib\\Foo".data 1 1 "gen\\lib\\Foo".data
    (fun k => by simp [st0, countKey])
    (by decide)
    (by
      have hs : (load 1 wC5 st0 ('/' :: "lib/Foo".data)).2 = some ("gen\\lib\\Foo".data) := by
        decide
      exact Prod.ext rfl hs)
    (by decide)
  exact h

/-- C9: `loadMachO` registers the record in the index before loading
referenced dylibs and before resolving bindings; consequently a recursive
`load` of an already-registered path is a pure cache hit, and loading any
dependency graph — cyclic ones included — terminates: fuel one larger than
the number of not-yet-loaded files is never exhausted. -/
theorem claim_C9 (w : World) (st : LoaderState) (p : Path)
    (h : st.outOfFuel = false) :
    (load (missing w st + 1) w st p).1.outOfFuel = false ∧
    (∀ (fuel : Nat) (k : Path) (r : LoadedLibrary),
      alLookup st.lis (resolvePath k).Path = some r →
      load (fuel + 1) w st k = (st, some ((resolvePath k).Path))) := by
  constructor
  · exact (load_ok w (missing w st + 1) st p).1.2.2.2 h (Nat.lt_succ_self _)
  · intro fuel k r hk
    exact load_cache_hit w fuel st k r hk

/-- C9 witness: the cyclic graph `a.dylib ↔ b.dylib` loads without
exhausting fuel `missing + 1 = 3`, and a reload of `a.dylib` afterwards is a
cache hit. -/
theorem claim_C9_witness :
    (load (missing wC9 st0 + 1) wC9 st0 "a.dylib".data).1.outOfFuel = false ∧
    load 1 wC9 stC9 "a.dylib".data = (stC9, some ((resolvePath "a.dylib".data).Path)) := by
  have h1 := (claim_C9 wC9 st0 "a.dylib".data rfl).1
  have h2 := (claim_C9 wC9 stC9 "a.dylib".data (by decide)).2 0 "a.dylib".data
    ((alLookup stC9.lis (resolvePath "a.dylib".data).Path).getD default) rfl
  exact ⟨h1, h2⟩

/-- Loading an uncached PE runs `loadPE` and tags a non-null result. -/
theorem load_pe_unfold (w : World) (f : Nat) (st : LoaderState) (p : Path) (d : PEFile)
    (hcache : alLookup st.lis (resolvePath p).Path = none)
    (hfs : alLookup w.fs (resolvePath p).Path = some (.pe d)) :
    load (f + 1) w st p =
      (match (loadPE st (resolvePath p).Path d).2 with
       | some k =>
         (updateLib k (fun rec0 => { rec0 with isWrapperDLL := isGenWrapper (resolvePath p) })
           (loadPE st (resolvePath p).Path d).1, some k)
       | none => ((loadPE st (resolvePath p).Path d).1, none)) := by
  show loadCore w (fun st' q => load f w st' q) st p = _
  unfold loadCore
  simp only [hcache, hfs]

/-- Lemma: `loadPE` on a PE the host loader rejects: null result, entry erased. -/
theorem loadPE_noLoad (st : LoaderState) (path : Path) (d : PEFile)
    (hld : d.loadOk = false) (hnp : alLookup st.lis path = none) :
    (loadPE st path d).2 = none ∧ (loadPE st path d).1.lis = st.lis := by
  unfold loadPE
  rw [if_pos (by simp [hld])]
  refine ⟨rfl, ?_⟩
  show alErase path (alInsert path (dllInitRecord d) st.lis) = st.lis
  exact alErase_alInsert path (dllInitRecord d) st.lis hnp

/-- Lemma: `loadPE` when `GetModuleInformation` fails: null result, but the
freshly inserted record (with only `Ptr` set) stays in the index. -/
theorem loadPE_noInfo (st : LoaderState) (path : Path) (d : PEFile)
    (hld : d.loadOk = true) (hmi : d.modInfoOk = false) :
    (loadPE st path d).2 = none ∧
    (loadPE st path d).1.lis =
      alUpdate path (fun r => { r with hasPtr := true })
        (alInsert path (dllInitRecord d) st.lis) := by
  unfold loadPE
  rw [if_neg (by simp [hld]), if_pos (by simp [hmi])]
  exact ⟨rfl, rfl⟩

/-- A failed-`LoadPackagedLibrary` load: null result, index unchanged. -/
theorem load_pe_noLoad_snd (w : World) (f : Nat) (st : LoaderState) (p : Path) (d : PEFile)
    (hcache : alLookup st.lis (resolvePath p).Path = none)
    (hfs : alLookup w.fs (resolvePath p).Path = some (.pe d))
    (hld : d.loadOk = false) :
    (load (f + 1) w st p).2 = none ∧ (load (f + 1) w st p).1.lis = st.lis := by
  rw [load_pe_unfold w f st p d hcache hfs]
  obtain ⟨hb1, hb2⟩ := loadPE_noLoad st (resolvePath p).Path d hld hcache
  simp only [hb1]
  exact ⟨trivial, hb2⟩

/-- C10: `loadPE` failure handling is asymmetric.  If the host loader call
fails, the just-inserted entry is erased and `load` returns null, so a later
load of the same path retries (and fails again on the same file).  If the
module-information query fails, `load` returns null but the record — with
only the module handle set — stays in the index, and every later load
returns that cached, partially initialised, non-null record without
re-running `loadPE`. -/
theorem claim_C10 (w : World) (st : LoaderState) (p : Path) (d : PEFile) (fuel fuel2 : Nat)
    (hf : 0 < fuel) (hf2 : 0 < fuel2)
    (hcache : alLookup st.lis (resolvePath p).Path = none)
    (hfs : alLookup w.fs (resolvePath p).Path = some (.pe d)) :
    (d.loadOk = false →
      (load fuel w st p).2 = none ∧
      alLookup (load fuel w st p).1.lis (resolvePath p).Path = none ∧
      (load fuel2 w (load fuel w st p).1 p).2 = none) ∧
    (d.loadOk = true → d.modInfoOk = false →
      (load fuel w st p).2 = none ∧
      alLookup (load fuel w st p).1.lis (resolvePath p).Path =
        some { dllInitRecord d with hasPtr := true } ∧
      load fuel2 w (load fuel w st p).1 p =
        ((load fuel w st p).1, some ((resolvePath p).Path))) := by
  obtain ⟨f, rfl⟩ : ∃ f, fuel = f + 1 := ⟨fuel - 1, by omega⟩
  obtain ⟨f2, rfl⟩ : ∃ f2, fuel2 = f2 + 1 := ⟨fuel2 - 1, by omega⟩
  constructor
  · intro hld
    obtain ⟨h1, h2⟩ := load_pe_noLoad_snd w f st p d hcache hfs hld
    have hcache2 : alLookup (load (f + 1) w st p).1.lis (resolvePath p).Path = none := by
      rw [h2]
      exact hcache
    obtain ⟨h3, _⟩ := load_pe_noLoad_snd w f2 (load (f + 1) w st p).1 p d hcache2 hfs hld
    exact ⟨h1, hcache2, h3⟩
  · intro hld hmi
    rw [load_pe_unfold w f st p d hcache hfs]
    obtain ⟨hb1, hb2⟩ := loadPE_noInfo st (resolvePath p).Path d hld hmi
    simp only [hb1]
    have hlook : alLookup (loadPE st (resolvePath p).Path d).1.lis (resolvePath p).Path =
        some { dllInitRecord d with hasPtr := true } := by
      rw [hb2, alLookup_alUpdate_self, alLookup_alInsert_self]
      rfl
    refine ⟨trivial, hlook, ?_⟩
    exact load_cache_hit w f2 (loadPE st (resolvePath p).Path d).1 p
      { dllInitRecord d with hasPtr := true } hlook

/-- C10 witness: the two concrete failing PEs of `wC10`. -/
theorem claim_C10_witness :
    ((load 1 wC10 st0 "p1.dll".data).2 = none ∧
      alLookup (load 1 wC10 st0 "p1.dll".data).1.lis
        (resolvePath "p1.dll".data).Path = none ∧
      (load 1 wC10 (load 1 wC10 st0 "p1.dll".data).1 "p1.dll".data).2 = none) ∧
    ((load 1 wC10 st0 "p2.dll".data).2 = none ∧
      alLookup (load 1 wC10 st0 "p2.dll".data).1.lis
        (resolvePath "p2.dll".data).Path =
        some { dllInitRecord peNoInfo with hasPtr := true } ∧
      load 1 wC10 (load 1 wC10 st0 "p2.dll".data).1 "p2.dll".data =
        ((load 1 wC10 st0 "p2.dll".data).1, some ((resolvePath "p2.dll".data).Path))) := by
  have h1 := (claim_C10 wC10 st0 "p1.dll".data peNoLoad 1 1 (by decide) (by decide)
    rfl rfl).1 rfl
  have h2 := (claim_C10 wC10 st0 "p2.dll".data peNoInfo 1 1 (by decide) (by decide)
    rfl rfl).2 rfl rfl
  exact ⟨h1, h2⟩

/-- C1 (amended): when the faulting address belongs to a non-wrapper library
and the computed RVA is found in the wrapper's `WrapperIndex`, the hook
loads the dylib named by the index entry, resolves `$__ipaSim_wraps_<RVA>`
as the new target address — and then, because the local `Wrapper` flag was
initialised from the faulting library and never set to true, *writes the
target address to the guest PC* and returns success.  The guest-`R0` read
and the `continueOutsideEmulation` deferral of a `void(uint32)` call happen
only when the faulting address already lies in a wrapper DLL. -/
theorem claim_C1 (fuel : Nat) (w : World) (emu : Emu) (st st1 st2 : LoaderState)
    (addr : Nat) (libPath : Path) (lib : LoadedLibrary) (wk dk : Path)
    (rva : Nat) (idx : WrapperIndex) (e : Nat) (dylibName : Path) (newAddr : Nat)
    (hlk : lookupAddr st addr = some (libPath, lib))
    (hw : lib.isWrapperDLL = false)
    (hload1 : load fuel w st (wrapperPathFor libPath) = (st1, some wk))
    (hidx : idx = w.idxAt (libFindSymbol ((alLookup st1.lis wk).getD default)
      "?Idx@@3UWrapperIndex@@A"))
    (hrva : rva = addr - lib.startAddress + 0x1000)
    (hentry : alLookup idx.map rva = some e)
    (hdn : dylibName = idx.dylibs.getD e [])
    (hload2 : load fuel w st1 dylibName = (st2, some dk))
    (hsym : libFindSymbol ((alLookup st2.lis dk).getD default) (wrapsSymbol rva) = newAddr)
    (hnz : newAddr ≠ 0) :
    handleFetchProtMem fuel w emu st addr = (st2, FetchResult.wrotePC newAddr) ∧
    (∀ (st' : LoaderState) (libPath' : Path) (lib' : LoadedLibrary),
      lookupAddr st' addr = some (libPath', lib') → lib'.isWrapperDLL = true →
      handleFetchProtMem fuel w emu st' addr =
        (st', FetchResult.deferWrapper addr (emu.regs 0))) := by
  constructor
  · subst hidx
    subst hrva
    subst hdn
    unfold handleFetchProtMem
    simp only [hlk, hw, Bool.false_eq_true, if_false, hload1, hentry, hload2, hsym,
      if_neg hnz]
  · intro st' libPath' lib' hlk' hw'
    unfold handleFetchProtMem
    simp only [hlk', hw', if_true]

/-- C1 counterexample: in the concrete `wC1` scenario — faulting address
`0x100010` in the non-wrapper `A.dll`, `WrapperIndex` hit at RVA 4112,
wrapped symbol at `0x200040` — the hook writes the target to the guest PC;
it does not read `R0` (= `0x7777`) and defer the wrapper call, refuting the
claim's "rather than writing the target address to the guest PC". -/
theorem claim_C1_counterexample :
    (handleFetchProtMem 2 wC1 emuC1 stC1 0x100010).2 = FetchResult.wrotePC 0x200040 ∧
    ¬ (handleFetchProtMem 2 wC1 emuC1 stC1 0x100010).2 =
        FetchResult.deferWrapper 0x200040 (emuC1.regs 0) := by
  refine ⟨by decide, by decide⟩

/-- C1 witness: the amended theorem at the concrete `wC1` scenario. -/
theorem claim_C1_witness :
    handleFetchProtMem 2 wC1 emuC1 stC1 0x100010 =
      (stC1d, FetchResult.wrotePC 0x200040) := by
  have h := claim_C1 2 wC1 emuC1 stC1 stC1w stC1d 0x100010 "A.dll".data recA
    ("gen\\A.wrapper.dll".data) ("libw.dll".data) 4112
    (wC1.idxAt (libFindSymbol ((alLookup stC1w.lis "gen\\A.wrapper.dll".data).getD default)
      "?Idx@@3UWrapperIndex@@A"))
    0 ("libw.dll".data) 0x200040
    rfl rfl
    (by
      have hs : (load 2 wC1 stC1 (wrapperPathFor "A.dll".data)).2 =
          some ("gen\\A.wrapper.dll".data) := by decide
      exact Prod.ext rfl hs)
    rfl rfl (by decide) (by decide)
    (by
      have hs : (load 2 wC1 stC1w "libw.dll".data).2 = some ("libw.dll".data) := by decide
      exact Prod.ext rfl hs)
    (by decide) (by decide)
  exact h.1

end Ipasim
